import Mathlib

/-!
Verification development for the mockldap package (mock in-memory LDAP
client). The definitions below are a shallow embedding of the Python
sources:

* `src/mockldap/ldapobject.py` — the `LDAPObject` simulated client
  (`_search_s`, `_compare_s`, `simple_bind_s`, `_modify_s`, `_rename_s`);
* `src/mockldap/recording.py` — the call-recording / seeding wrapper
  (`RecordedMethod.__call__`, `set_return_value`);
* `src/mockldap/filter.py` — the filter tokenizer, parser, `unparse`
  and `matches`.

Python strings are modelled as `String` / `List Char`, dictionaries as
insertion-ordered association lists, and Python exceptions as explicit
error values (`PyErr`).  `ldap.cidict.cidict` (case-insensitive keys) is
modelled by association lists looked up through a lower-cased comparison.
-/

deriving instance DecidableEq for Except

namespace Mockldap

/-! Python exceptions that the embedded code can raise.  The constructors
mirror the exception classes used by the sources: `ldap.NO_SUCH_OBJECT`,
`ldap.UNDEFINED_TYPE`, `ldap.INVALID_CREDENTIALS`, `ldap.FILTER_ERROR`,
`mockldap.filter.UnsupportedOp`, `mockldap.recording.SeedRequired`, and
the built-in Python errors the code can hit (IndexError from `s[1]` /
`s[-1]`, ValueError from tuple unpacking of `str.split`, TypeError from
subscripting `None`, AttributeError from a missing attribute, NameError
from an unbound local). -/
inductive PyErr where
  | seedRequired (msg : String)
  | noSuchObject
  | undefinedType
  | invalidCredentials (msg : String)
  | filterError
  | unsupportedOp
  | indexError
  | valueError
  | typeError
  | attributeError
  | nameError
  deriving Repr, DecidableEq

/-- Python attribute values as stored in a directory entry.  Seed data uses
lists of strings (`vlist`); `_modify_s` with `MOD_REPLACE` can store a bare
string or `None` verbatim (`entry[key] = value`), hence the other two
constructors. -/
inductive AttrVal where
  | vlist : List String → AttrVal
  | vstr : String → AttrVal
  | vnone : AttrVal
  deriving Repr, DecidableEq

/-- A directory entry: a plain Python dict from attribute name to value
(case-sensitive keys, insertion-ordered). -/
abbrev Entry := List (String × AttrVal)

/-- The directory: an `ldap.cidict.cidict` from DN to entry.  Keys keep
their original case for iteration (`keys()`), lookups compare
lower-cased. -/
abbrev Dir := List (String × Entry)

/-- Python `str.lower()` (ASCII, which is all the sources use). -/
def lowerStr (s : String) : String := String.mk (s.data.map Char.toLower)

/-- Plain-dict lookup (`entry[attr]`, case-sensitive). -/
def entryGet (e : Entry) (k : String) : Option AttrVal :=
  (e.find? (fun p => p.1 = k)).map (·.2)

/-- Plain-dict store (`entry[key] = value`): replace in place if the key
exists, else append. -/
def entrySet (e : Entry) (k : String) (v : AttrVal) : Entry :=
  if e.any (fun p => p.1 = k) then
    e.map (fun p => if p.1 = k then (k, v) else p)
  else
    e ++ [(k, v)]

/-- Plain-dict delete (`del entry[key]`). -/
def entryDel (e : Entry) (k : String) : Entry :=
  e.filter (fun p => p.1 ≠ k)

/-- Embedding of `cidict` lookup (`self.directory[dn]` / `.get(dn)`): case-insensitive. -/
def cidGet (d : Dir) (k : String) : Option Entry :=
  (d.find? (fun p => lowerStr p.1 = lowerStr k)).map (·.2)

/-- Embedding of `cidict` store: `data[lower] = value; _keys[lower] = key` — an existing
binding is replaced and its displayed key takes the new spelling, else the
binding is appended. -/
def cidSet (d : Dir) (k : String) (v : Entry) : Dir :=
  if d.any (fun p => lowerStr p.1 = lowerStr k) then
    d.map (fun p => if lowerStr p.1 = lowerStr k then (k, v) else p)
  else
    d ++ [(k, v)]

/-- Embedding of `cidict` in-place value update: used where Python mutates the entry
object through an alias without a `__setitem__` (key spelling kept). -/
def cidSetValue (d : Dir) (k : String) (v : Entry) : Dir :=
  d.map (fun p => if lowerStr p.1 = lowerStr k then (p.1, v) else p)

/-- Embedding of `del self.directory[dn]` — case-insensitive delete. -/
def cidDel (d : Dir) (k : String) : Dir :=
  d.filter (fun p => lowerStr p.1 ≠ lowerStr k)

/-- Embedding of `self.directory.keys()` — the stored (original-case) DNs. -/
def cidKeys (d : Dir) : List String := d.map (·.1)

/-- Python `s.count(c)` for a single-character needle. -/
def countChar (cs : List Char) (c : Char) : Nat :=
  (cs.filter (fun x => x = c)).length

/-- Python `s.count(sub)` (non-overlapping occurrences), fuelled scan. -/
def countSubAux (pat : List Char) : Nat → List Char → Nat
  | 0, _ => 0
  | _, [] => 0
  | fuel + 1, c :: rest =>
    if pat.isPrefixOf (c :: rest) then
      countSubAux pat fuel ((c :: rest).drop pat.length) + 1
    else
      countSubAux pat fuel rest

/-- Python `s.count(sub)` for a non-empty needle. -/
def countSub (pat s : List Char) : Nat := countSubAux pat (s.length + 1) s

/-- Python `s.split(sep)` for a non-empty separator, fuelled scan.
`"".split(sep) = [""]`; consecutive separators yield empty pieces. -/
def pySplitAux (sep : List Char) : Nat → List Char → List Char → List (List Char)
  | 0, s, cur => [cur ++ s]
  | _ + 1, [], cur => [cur]
  | fuel + 1, c :: rest, cur =>
    if sep.isPrefixOf (c :: rest) then
      cur :: pySplitAux sep fuel ((c :: rest).drop sep.length) []
    else
      pySplitAux sep fuel rest (cur ++ [c])

/-- Python `s.split(sep)` for a non-empty separator. -/
def pySplit (s sep : List Char) : List (List Char) :=
  pySplitAux sep (s.length + 1) s []

/-- Python `s.endswith(t)` (case-sensitive suffix test). -/
def pyEndsWith (s suf : List Char) : Bool := suf.isSuffixOf s

/-- Python slice `s[a:-b]` for natural `a`, `b` (empty when the bounds
cross). -/
def pySlice (cs : List Char) (a b : Nat) : List Char :=
  (cs.drop a).take (cs.length - b - a)

/-! ## `LDAPObject._search_s` (ldapobject.py lines 183-273)

The SeedRequired gate (lines 184-190), the inner `get_results` closure
(lines 196-254) and the scope dispatch (lines 256-273) are embedded
function by function.  Two behaviours of the Python code matter and are
kept faithfully: the condition `filterstr[1] is '&' or '|'` parses as
`(filterstr[1] is '&') or '|'` and is therefore always truthy, so the
sub-filter dictionary is built for every filter string; and tuple
unpacking of `split('=')` raises ValueError unless there are exactly two
pieces. -/

/-- Truthiness of an attribute value (`attrs[attr]` in a boolean
context). -/
def attrTruthy : AttrVal → Bool
  | .vlist l => l ≠ []
  | .vstr s => s ≠ ""
  | .vnone => false

/-- Iterating an attribute value (`set(attrs[attr])`, `for password in
...`): a list yields its elements, a string its characters as one-char
strings, `None` raises TypeError. -/
def attrElems : AttrVal → Except PyErr (List String)
  | .vlist l => .ok l
  | .vstr s => .ok (s.data.map (fun c => String.mk [c]))
  | .vnone => .error .typeError

/-- Substring containment on character lists (Python `in` on strings). -/
def infixOfChars : List Char → List Char → Bool
  | pat, [] => pat.isEmpty
  | pat, c :: rest => pat.isPrefixOf (c :: rest) || infixOfChars pat rest

/-- Python `value in attrs[attr]`: list membership, substring test on a
string, TypeError on `None`. -/
def pyInAttr (v : String) : AttrVal → Except PyErr Bool
  | .vlist l => .ok (v ∈ l)
  | .vstr s => .ok (infixOfChars v.data s.data)
  | .vnone => .error .typeError

/-- One step of building the `filters` dict of `get_results`:
`filters[attr].update([value])` with a KeyError fallback to
`filters[attr] = set([value])`.  The Python value is a `set`; it is
modelled as a deduplicated insertion-ordered list. -/
def addFilter (fs : List (String × List String)) (attr v : String) :
    List (String × List String) :=
  if fs.any (fun p => p.1 = attr) then
    fs.map (fun p => if p.1 = attr then (p.1, if v ∈ p.2 then p.2 else p.2 ++ [v]) else p)
  else
    fs ++ [(attr, [v])]

/-- The loop `for subfilter in subfilters: attr, value = subfilter.split('=')`
(lines 205-210).  Unpacking raises ValueError unless the split has exactly
two pieces. -/
def buildFilters : List (List Char) → List (String × List String) →
    Except PyErr (List (String × List String))
  | [], fs => .ok fs
  | sf :: rest, fs =>
    match pySplit sf ['='] with
    | [a, v] => buildFilters rest (addFilter fs (String.mk a) (String.mk v))
    | _ => .error .valueError

/-- The `search_type == '&'` loop (lines 212-223) on a non-empty filter
dict: every listed attribute must exist and either be a superset of the
wanted values or the first wanted value is `*`; a missing attribute breaks
with `found = False`. -/
def andScan (attrs : Entry) : List (String × List String) → Except PyErr Bool
  | [] => .ok true
  | (attr, vset) :: rest => do
    match entryGet attrs attr with
    | none => .ok false
    | some av =>
      let curr ← attrElems av
      if vset.all (fun x => x ∈ curr) ∨ vset.head? = some "*" then
        andScan attrs rest
      else
        .ok false

/-- The `search_type == '|'` loop (lines 224-234): a missing attribute is
skipped; the first attribute whose wanted values are a subset (or whose
first wanted value is `*`) succeeds. -/
def orScan (attrs : Entry) : List (String × List String) → Except PyErr Bool
  | [] => .ok false
  | (attr, vset) :: rest => do
    match entryGet attrs attr with
    | none => orScan attrs rest
    | some av =>
      let curr ← attrElems av
      if vset.all (fun x => x ∈ curr) ∨ vset.head? = some "*" then
        .ok true
      else
        orScan attrs rest

/-- The simple-filter test (lines 236-244):
`attrs and attrs[attr] and attr in attrs.keys() and str(value) in attrs[attr]
or value == u'*'` with the KeyError of `attrs[attr]` setting
`found = False`. -/
def simpleFound (attrs : Option Entry) (attr value : String) : Except PyErr Bool :=
  match attrs with
  | none => .ok (value = "*")
  | some a =>
    if a = [] then .ok (value = "*")
    else
      match entryGet a attr with
      | none => .ok false
      | some av =>
        if attrTruthy av then do
          let b ← pyInAttr value av
          .ok (b ∨ value = "*")
        else
          .ok (value = "*")

/-- The attrlist/attrsonly projection (lines 247-253): iterate a snapshot
of the keys; `attrsonly` empties every value list, a truthy `attrlist`
deletes the keys it does not name. -/
def project (a : Entry) (attrlist : Option (List String)) (attrsonly : Nat) : Entry :=
  let alTruthy : Bool := match attrlist with
    | some l => !l.isEmpty
    | none => false
  if alTruthy ∨ attrsonly ≠ 0 then
    (a.map (·.1)).foldl (fun na item =>
      let na := if attrsonly ≠ 0 then entrySet na item (.vlist []) else na
      if alTruthy ∧ item ∉ (attrlist.getD []) then entryDel na item else na) a
  else
    a

/-- The `found` flag computed by `get_results` (lines 196-244):
`filterstr[1]` raises IndexError on short strings; the sub-filter dict is
built unconditionally (see the module comment); the branch on
`search_type` is chosen by `filterstr[1]`. -/
def getFound (d : Dir) (dn : String) (f : List Char) : Except PyErr Bool :=
  match f.get? 1 with
  | none => .error .indexError
  | some c1 =>
    match buildFilters (pySplit (pySlice f 3 2) [')', '(']) [] with
    | .error e => .error e
    | .ok fs =>
      if c1 = '&' then
        match fs with
        | [] => .ok false
        | _ =>
          match cidGet d dn with
          | none => .error .typeError
          | some a => andScan a fs
      else if c1 = '|' then
        match fs with
        | [] => .ok false
        | _ =>
          match cidGet d dn with
          | none => .error .typeError
          | some a => orScan a fs
      else
        match pySplit (pySlice f 1 1) ['='] with
        | [a, v] => simpleFound (cidGet d dn) (String.mk a) (String.mk v)
        | _ => .error .valueError

/-- Embedding of `get_results(dn, filterstr, results)` (lines 196-254): returns the
(possibly empty) list of pairs this candidate contributes — the matched
entry under the attrlist/attrsonly projection. -/
def getResults (d : Dir) (attrlist : Option (List String)) (attrsonly : Nat)
    (dn : String) (f : List Char) : Except PyErr (List (String × Entry)) :=
  match getFound d dn f with
  | .error e => .error e
  | .ok false => .ok []
  | .ok true =>
    match cidGet d dn with
    | none => .error .attributeError
    | some a => .ok [(dn, project a attrlist attrsonly)]

/-- Python `repr` of the attrlist argument as interpolated by `'%s'`:
`None` or a list display with quoted elements. -/
def attrlistStr : Option (List String) → String
  | none => "None"
  | some l => "[" ++ String.intercalate ", " (l.map (fun s => "\x27" ++ s ++ "\x27")) ++ "]"

/-- The SeedRequired message of `_search_s` (lines 189-190). -/
def seedMsg (base : String) (scope : Nat) (fstr : String)
    (attrlist : Option (List String)) (attrsonly : Nat) : String :=
  "search_s(\"" ++ base ++ "\", " ++ toString scope ++ ", \"" ++ fstr ++ "\", \""
    ++ attrlistStr attrlist ++ "\", " ++ toString attrsonly ++ ")"

/-- The gate of `_search_s` (lines 184-188), with Python's left-to-right
short-circuit evaluation: `.ok true` means SeedRequired is raised,
`.error .indexError` models `filterstr[1]` / `filterstr[-1]` on a string
that is too short.  (`'))' in filterstr[-1]` compares a two-character
needle against a one-character string and is always false.) -/
def seedGate (f : List Char) : Except PyErr Bool :=
  if countChar f '|' > 1 then .ok true
  else if countChar f '&' > 1 then .ok true
  else
    match (if countChar f '|' = 1 then (f.get? 1).map (fun c => c != '|') else some false) with
    | none => .error .indexError
    | some true => .ok true
    | some false =>
      match (if countChar f '&' = 1 then (f.get? 1).map (fun c => c != '&') else some false) with
      | none => .error .indexError
      | some true => .ok true
      | some false =>
        match f.getLast? with
        | none => .error .indexError
        | some _ =>
          if '!' ∈ f then .ok true
          else if countChar f '*' ≠ countSub ['=', '*', ')'] f then .ok true
          else .ok false

/-- The scope loops (lines 256-273): run `get_results` over each candidate
in directory order, concatenating, and propagating the first exception. -/
def collectResults (d : Dir) (attrlist : Option (List String)) (attrsonly : Nat)
    (f : List Char) : List String → Except PyErr (List (String × Entry))
  | [] => .ok []
  | dn :: rest =>
    match getResults d attrlist attrsonly dn f with
    | .error e => .error e
    | .ok r =>
      match collectResults d attrlist attrsonly f rest with
      | .error e => .error e
      | .ok rs => .ok (r ++ rs)

/-- Embedding of `LDAPObject._search_s(base, scope, filterstr, attrlist, attrsonly)`
(lines 183-273).  Scope constants: `ldap.SCOPE_BASE = 0`,
`ldap.SCOPE_ONELEVEL = 1`, `ldap.SCOPE_SUBTREE = 2`; any other scope
falls through every branch and returns the empty result list.  BASE
checks `base` against `self.directory.keys()` with a case-sensitive list
membership; ONELEVEL keeps the DNs whose `'='`-split has exactly one more
piece than the base's and which end with `base` as a raw string suffix;
SUBTREE keeps the DNs ending with `base`. -/
def searchS (d : Dir) (base : String) (scope : Nat) (fstr : String)
    (attrlist : Option (List String)) (attrsonly : Nat) :
    Except PyErr (List (String × Entry)) :=
  match seedGate fstr.data with
  | .error e => .error e
  | .ok true => .error (.seedRequired (seedMsg base scope fstr attrlist attrsonly))
  | .ok false =>
    if scope = 0 then
      if base ∈ cidKeys d then
        getResults d attrlist attrsonly base fstr.data
      else
        .error .noSuchObject
    else if scope = 1 then
      collectResults d attrlist attrsonly fstr.data
        ((cidKeys d).filter (fun dn =>
          (pySplit dn.data ['=']).length = (pySplit base.data ['=']).length + 1
            ∧ pyEndsWith dn.data base.data))
    else if scope = 2 then
      collectResults d attrlist attrsonly fstr.data
        ((cidKeys d).filter (fun dn => pyEndsWith dn.data base.data))
    else
      .ok []

/-! ## `LDAPObject._compare_s` and `simple_bind_s` (ldapobject.py 68-83,
165-181)

`ldap_md5_crypt.verify(value, password)` from passlib is modelled by an
oracle `verify : String → String → Bool`; the code treats both a `False`
return and a raised `NameError`/`ValueError` (passlib missing, or the
stored value not in crypt format) as "skip this stored password", so both
are folded into `false`. -/

/-- Embedding of `LDAPObject._compare_s(dn, attr, value)` (lines 165-181): NO_SUCH_OBJECT
for a missing DN (KeyError handler), UNDEFINED_TYPE for a missing
attribute; for `userPassword` first try hash verification against each
stored value, then fall back to `(value in self.directory[dn][attr]) and 1
or 0`. -/
def compareS (verify : String → String → Bool) (d : Dir) (dn attr value : String) :
    Except PyErr Nat :=
  match cidGet d dn with
  | none => .error .noSuchObject
  | some entry =>
    match entryGet entry attr with
    | none => .error .undefinedType
    | some av =>
      if attr = "userPassword" then do
        let vals ← attrElems av
        if vals.any (fun p => verify value p) then
          pure 1
        else do
          let b ← pyInAttr value av
          pure (if b then 1 else 0)
      else do
        let b ← pyInAttr value av
        pure (if b then 1 else 0)

/-- The per-connection state touched by `simple_bind_s`: the directory and
`bound_as`. -/
structure LdapState where
  directory : Dir
  boundAs : Option String
  deriving Repr, DecidableEq

/-- Embedding of `LDAPObject.simple_bind_s(who, cred)` (lines 68-83): empty/empty
succeeds unconditionally; otherwise success is decided by
`_compare_s(who, 'userPassword', cred)` (whose exceptions propagate); on
success `bound_as = who` and `(97, [])` is returned, on failure
`ldap.INVALID_CREDENTIALS('%s:%s' % (who, cred))` is raised. -/
def simpleBindS (verify : String → String → Bool) (st : LdapState) (who cred : String) :
    Except PyErr (Nat × List String) × LdapState :=
  if who = "" ∧ cred = "" then
    (.ok (97, []), { st with boundAs := some who })
  else
    match compareS verify st.directory who "userPassword" cred with
    | .error e => (.error e, st)
    | .ok n =>
      if n ≠ 0 then
        (.ok (97, []), { st with boundAs := some who })
      else
        (.error (.invalidCredentials (who ++ ":" ++ cred)), st)

/-! ## The call recorder (recording.py 102-191)

Python values passed through the recorder are modelled by `PyVal`
(structural content) wrapped in `Obj` (content plus an object identity).
`deepcopy` of a compound value allocates a fresh identity and keeps the
content; `deepcopy` of an atomic immutable returns the same object, as in
CPython.  The wrapped simulated implementation is abstracted as an
`Except PyErr Obj` (its result, or the exception it raises). -/

/-- Atomic Python values appearing in recorded calls. -/
inductive PyAtom where
  | astr : String → PyAtom
  | aint : Int → PyAtom
  | anone : PyAtom
  | alist : List String → PyAtom
  deriving Repr, DecidableEq

/-- Structural content of a Python value passing through the recorder
(what `==` compares): an atom, a positional-argument tuple, a
keyword-argument dict, a list, or an exception value.  This covers every
shape the mockldap call sites construct. -/
inductive PyVal where
  | atom : PyAtom → PyVal
  | vtuple : List PyAtom → PyVal
  | vdict : List (String × PyAtom) → PyVal
  | vlist : List PyAtom → PyVal
  | vexc : String → PyVal
  deriving Repr, DecidableEq

/-- A Python object: structural content plus identity. -/
structure Obj where
  oid : Nat
  val : PyVal
  deriving Repr, DecidableEq

/-- Compound (mutable or instance) values, for which `deepcopy` allocates
a new object. -/
def isCompound : PyVal → Bool
  | .vtuple _ => true
  | .vdict _ => true
  | .vlist _ => true
  | .vexc _ => true
  | _ => false

/-- Embedding of `copy.deepcopy`: a compound value is copied to a fresh identity with
equal content, an atomic immutable is returned unchanged. -/
def deepcopyObj (o : Obj) (next : Nat) : Obj × Nat :=
  if isCompound o.val then ({ oid := next, val := o.val }, next + 1) else (o, next)

/-- Embedding of `RecordedMethod._is_exception` (lines 184-191). -/
def isExceptionVal : PyVal → Bool
  | .vexc _ => true
  | _ => false

/-- Recorder state of one `RecordableMethods` instance: the call log
(`_recorded_calls`), the seed table (`_seeded_calls`, newest first within
each method name), and the allocation counter backing object
identities. -/
structure RecState where
  recordedCalls : List (String × PyVal × PyVal)
  seeds : List (String × ((PyVal × PyVal) × Obj))
  nextId : Nat
  deriving Repr, DecidableEq

/-- The seed list of one method (`self._seeded_calls[name]`), newest
first. -/
def seedsFor (st : RecState) (name : String) : List ((PyVal × PyVal) × Obj) :=
  (st.seeds.filter (fun p => p.1 = name)).map (·.2)

/-- Embedding of `set_return_value(args, kwargs, value)` (lines 134-157): deep-copies
the arguments and the value and inserts the pair at the front of the
method's seed list.  (The argument copies have the same structural
content, which is all that seed matching compares.) -/
def setReturnValue (st : RecState) (name : String) (args kwargs : PyVal) (value : Obj) :
    RecState :=
  let (v2, n2) := deepcopyObj value st.nextId
  { st with nextId := n2, seeds := (name, ((args, kwargs), v2)) :: st.seeds }

/-- Embedding of `next(iter(self._seeded_values(args, kwargs)))` (lines 111, 162-168):
the first (most recent) seed whose stored signature equals the call's. -/
def findSeed (l : List ((PyVal × PyVal) × Obj)) (args kwargs : PyVal) : Option Obj :=
  (l.find? (fun s => s.1 = (args, kwargs))).map (·.2)

/-- Embedding of `RecordedMethod._call_repr` (lines 178-182), kept abstract at the
argument-rendering level: the operation name applied to the rendered
arguments. -/
def callRepr (name : String) (args kwargs : PyVal) : String :=
  name ++ "(" ++ toString (repr args) ++ ", " ++ toString (repr kwargs) ++ ")"

/-- What a recorded invocation can raise: the re-raised SeedRequired with
call context, a seeded exception object, or an exception escaping the
underlying implementation. -/
inductive CallErr where
  | seedRequired (msg : String)
  | raised (o : Obj)
  | fromImpl (e : PyErr)
  deriving Repr, DecidableEq

/-- Embedding of `RecordedMethod.__call__` (lines 107-122).  The call is recorded
first, unconditionally.  A matching seed is returned as a deep copy (or
raised if it is an exception value).  Otherwise the underlying simulated
implementation `impl` runs; its `SeedRequired` is re-raised with the call
signature prepended; its result is returned — also as a deep copy, since
`return deepcopy(value)` is shared by both paths. -/
def recordedCall (st : RecState) (name : String) (impl : Except PyErr Obj)
    (args kwargs : PyVal) : Except CallErr Obj × RecState :=
  let st1 := { st with recordedCalls := st.recordedCalls ++ [(name, args, kwargs)] }
  match findSeed (seedsFor st1 name) args kwargs with
  | some v =>
    if isExceptionVal v.val then
      (.error (.raised v), st1)
    else
      let (v2, n2) := deepcopyObj v st1.nextId
      (.ok v2, { st1 with nextId := n2 })
  | none =>
    match impl with
    | .error (.seedRequired m) =>
      (.error (.seedRequired ("Seed required for " ++ callRepr name args kwargs ++ ": " ++ m)),
        st1)
    | .error e => (.error (.fromImpl e), st1)
    | .ok v =>
      let (v2, n2) := deepcopyObj v st1.nextId
      (.ok v2, { st1 with nextId := n2 })

/-! ## `LDAPObject._modify_s` and `_rename_s` (ldapobject.py 275-330)

`ldap.MOD_ADD = 0`, `ldap.MOD_DELETE = 1`, `ldap.MOD_REPLACE = 2`.  The
MOD_ADD branch executes `key.append(value)` where `key` is the attribute
name string — AttributeError; the MOD_DELETE branch reads the local `row`
before any assignment — NameError (UnboundLocalError); MOD_REPLACE stores
the given value verbatim with `entry[key] = value`. -/

/-- The op loop of `_modify_s` (lines 281-298), applied to the entry
in order; the entry reflects the ops applied before an exception. -/
def applyMods : Entry → List (Nat × String × AttrVal) → Except PyErr Entry × Entry
  | entry, [] => (.ok entry, entry)
  | entry, (op, key, value) :: rest =>
    if op = 0 then (.error .attributeError, entry)
    else if op = 1 then (.error .nameError, entry)
    else if op = 2 then applyMods (entrySet entry key value) rest
    else applyMods entry rest

/-- Embedding of `LDAPObject._modify_s(dn, mod_attrs)` (lines 275-302): NO_SUCH_OBJECT
for a missing DN; otherwise the ops are applied in order to the (aliased)
entry and `(103, [])` is returned.  Because the entry object is aliased
into the directory, ops applied before an exception remain visible. -/
def modifyS (d : Dir) (dn : String) (mods : List (Nat × String × AttrVal)) :
    Except PyErr (Nat × List String) × Dir :=
  match cidGet d dn with
  | none => (.error .noSuchObject, d)
  | some entry =>
    match applyMods entry mods with
    | (.ok e2, _) => (.ok (103, []), cidSet d dn e2)
    | (.error e, e2) => (.error e, cidSetValue d dn e2)

/-- Python `','.join(xs)`. -/
def joinComma (xs : List (List Char)) : String :=
  String.intercalate "," (xs.map String.mk)

/-- Embedding of `LDAPObject._rename_s(dn, newdn)` (lines 316-330).  A missing DN takes
the KeyError handler, which executes `raise self.NO_SUCH_OBJECT`; the
instance has no such attribute, so what is actually raised is
AttributeError.  Otherwise the new full DN is assembled from the first two
`'='`-pieces of `newdn` and the old parent, `entry[changes[0]] =
changes[1]` stores the bare string, the entry is stored under the new DN
and the old key is deleted. -/
def renameS (d : Dir) (dn newdn : String) : Except PyErr (Nat × List String) × Dir :=
  match cidGet d dn with
  | none => (.error .attributeError, d)
  | some entry =>
    match pySplit newdn.data ['='] with
    | c0 :: c1 :: _ =>
      let newfulldn := String.mk c0 ++ "=" ++ String.mk c1 ++ ","
        ++ joinComma ((pySplit dn.data [',']).drop 1)
      let entry2 := entrySet entry (String.mk c0) (.vstr (String.mk c1))
      (.ok (109, []), cidDel (cidSet d newfulldn entry2) dn)
    | _ => (.error .indexError, d)

/-! ## Theorems for the call recorder (claims C2, C4, C9) -/

/-- Fixture: an empty recorder state with allocation counter 100. -/
def emptyRec : RecState := { recordedCalls := [], seeds := [], nextId := 100 }

/-- Fixture: a compound (list) result as produced by a simulated
implementation, with object identity 5. -/
def implListObj : Obj := { oid := 5, val := .vlist [.astr "a"] }

/-- Fixture: positional arguments of a sample recorded call. -/
def argsFix : PyVal := .vtuple [.astr "ou=example,o=test", .aint 2]

/-- Fixture: keyword arguments of a sample recorded call. -/
def kwFix : PyVal := .vdict []

/-- Claim C9: every invocation of a recorded operation appends its call
record (operation name, positional arguments, keyword arguments) to the
instance's call log, in invocation order, unconditionally — on the seeded
path, on the seeded-exception path, on the SeedRequired path and on every
other outcome of the simulated implementation. -/
theorem recordedCall_appends_call_log (st : RecState) (name : String)
    (impl : Except PyErr Obj) (args kwargs : PyVal) :
    (recordedCall st name impl args kwargs).2.recordedCalls
      = st.recordedCalls ++ [(name, args, kwargs)] := by
  unfold recordedCall
  cases h : findSeed (seedsFor { st with recordedCalls := st.recordedCalls ++ [(name, args, kwargs)] } name) args kwargs with
  | some v =>
    by_cases he : isExceptionVal v.val <;> simp [h, he]
  | none =>
    cases impl with
    | ok v => simp [h]
    | error e => cases e <;> simp [h]

/-- Claim C2 counterexample: with no seed registered, the recorder does
not return the simulated implementation's object verbatim — it returns a
fresh deep copy (same structural content, different object identity), so
the claim "returned to the caller verbatim, with no forced copy on that
path" is false at this input. -/
theorem recordedCall_impl_verbatim_counterexample :
    (recordedCall emptyRec "search_s" (.ok implListObj) argsFix kwFix).1
        = .ok { oid := 100, val := .vlist [.astr "a"] }
      ∧ (Except.ok { oid := 100, val := PyVal.vlist [.astr "a"] } : Except CallErr Obj)
        ≠ .ok implListObj := by
  exact ⟨by decide, by decide⟩

/-- Claim C2 as amended: when no seed matches, the simulated
implementation's compound result is returned as a deep copy — structurally
equal content under a fresh object identity taken from the allocation
counter — not verbatim; only the content, never the identity, survives
the return. -/
theorem recordedCall_impl_result_deepcopied (st : RecState) (name : String)
    (args kwargs : PyVal) (v : Obj)
    (hns : findSeed (seedsFor st name) args kwargs = none)
    (hc : isCompound v.val = true) (hid : v.oid < st.nextId) :
    (recordedCall st name (.ok v) args kwargs).1
        = .ok { oid := st.nextId, val := v.val }
      ∧ ({ oid := st.nextId, val := v.val } : Obj) ≠ v := by
  constructor
  · unfold recordedCall
    have hseeds : seedsFor { st with recordedCalls := st.recordedCalls ++ [(name, args, kwargs)] } name
        = seedsFor st name := rfl
    simp [hseeds, hns, deepcopyObj, hc]
  · intro hcontra
    have : st.nextId = v.oid := congrArg Obj.oid hcontra
    omega

/-- Witness for the amended C2 theorem at a concrete input. -/
theorem recordedCall_impl_result_deepcopied_witness :
    (recordedCall emptyRec "search_s" (.ok implListObj) argsFix kwFix).1
        = .ok { oid := 100, val := .vlist [.astr "a"] }
      ∧ ({ oid := 100, val := PyVal.vlist [.astr "a"] } : Obj) ≠ implListObj := by
  have h := recordedCall_impl_result_deepcopied emptyRec "search_s" argsFix kwFix
    implListObj (by decide) (by decide) (by decide)
  exact h

/-- Deep copy keeps the structural content. -/
theorem deepcopyObj_val (o : Obj) (n : Nat) : (deepcopyObj o n).1.val = o.val := by
  unfold deepcopyObj
  split <;> rfl

/-- Updating the call log does not touch the seed table. -/
theorem seedsFor_record (st : RecState) (name nm2 : String) (args kwargs : PyVal) :
    seedsFor { st with recordedCalls := st.recordedCalls ++ [(nm2, args, kwargs)] } name
      = seedsFor st name := rfl

/-- Registering a seed (`set_return_value`) puts the copied seed at the
front of the method's seed list. -/
theorem seedsFor_set (st : RecState) (name : String) (args kwargs : PyVal) (v : Obj) :
    seedsFor (setReturnValue st name args kwargs v) name
      = ((args, kwargs), (deepcopyObj v st.nextId).1) :: seedsFor st name := by
  unfold setReturnValue seedsFor
  simp

/-- The head of the seed list matches its own signature. -/
theorem findSeed_cons_self (sig : PyVal × PyVal) (o : Obj)
    (l : List ((PyVal × PyVal) × Obj)) :
    findSeed ((sig, o) :: l) sig.1 sig.2 = some o := by
  unfold findSeed
  simp

/-- A non-matching head is skipped by seed lookup. -/
theorem findSeed_cons_skip (sig : PyVal × PyVal) (o : Obj)
    (l : List ((PyVal × PyVal) × Obj)) (a2 k2 : PyVal) (h : (a2, k2) ≠ sig) :
    findSeed ((sig, o) :: l) a2 k2 = findSeed l a2 k2 := by
  unfold findSeed
  rw [List.find?_cons_of_neg]
  simp [Ne.symm h]

/-- A recorded call whose arguments match a non-exception seed returns a
deep copy of that seed. -/
theorem recordedCall_found_seed (st : RecState) (name : String) (impl : Except PyErr Obj)
    (args kwargs : PyVal) (o : Obj)
    (hfind : findSeed (seedsFor st name) args kwargs = some o)
    (ho : isExceptionVal o.val = false) :
    (recordedCall st name impl args kwargs).1 = .ok (deepcopyObj o st.nextId).1 := by
  unfold recordedCall
  simp only [seedsFor] at hfind ⊢
  rw [hfind]
  simp [ho]

/-- A recorded call with no matching seed returns a deep copy of the
simulated implementation's result. -/
theorem recordedCall_no_seed (st : RecState) (name : String) (args kwargs : PyVal) (w : Obj)
    (hfind : findSeed (seedsFor st name) args kwargs = none) :
    (recordedCall st name (.ok w) args kwargs).1 = .ok (deepcopyObj w st.nextId).1 := by
  unfold recordedCall
  simp only [seedsFor] at hfind ⊢
  rw [hfind]

/-- No invocation changes the seed table. -/
theorem recordedCall_seeds_unchanged (st : RecState) (name : String)
    (impl : Except PyErr Obj) (args kwargs : PyVal) :
    (recordedCall st name impl args kwargs).2.seeds = st.seeds := by
  unfold recordedCall
  cases h : findSeed (seedsFor { st with recordedCalls := st.recordedCalls ++ [(name, args, kwargs)] } name) args kwargs with
  | some v =>
    by_cases he : isExceptionVal v.val <;> simp [h, he]
  | none =>
    cases impl with
    | ok v => simp [h]
    | error e => cases e <;> simp [h]

/-- Claim C4: seeding a value for an exact argument signature and invoking
with the same arguments returns a value equal to the seed by structural
equality (conjunct 1) but not by identity (conjunct 2); the most recently
registered seed for an equal signature wins over an earlier one
(conjunct 3); invoking with different arguments does not use the seed and
falls through to the simulated behaviour (conjunct 4); and no call ever
consumes a seed — the seed table is unchanged by invocation
(conjunct 5). -/
theorem seed_then_call_semantics (st : RecState) (name : String)
    (impl : Except PyErr Obj) (args kwargs a2 k2 : PyVal) (v w : Obj)
    (hv : isExceptionVal v.val = false) :
    ((recordedCall (setReturnValue st name args kwargs v) name impl args kwargs).1.map Obj.val
        = .ok v.val)
    ∧ (isCompound v.val = true → v.oid < st.nextId →
        (recordedCall (setReturnValue st name args kwargs v) name impl args kwargs).1
          ≠ .ok v)
    ∧ ((recordedCall (setReturnValue (setReturnValue st name args kwargs w) name args kwargs v)
          name impl args kwargs).1.map Obj.val = .ok v.val)
    ∧ (((a2, k2) ≠ (args, kwargs)) → findSeed (seedsFor st name) a2 k2 = none →
        (recordedCall (setReturnValue st name args kwargs v) name (.ok w) a2 k2).1.map Obj.val
          = .ok w.val)
    ∧ ((recordedCall (setReturnValue st name args kwargs v) name impl args kwargs).2.seeds
        = (setReturnValue st name args kwargs v).seeds) := by
  have hv2 : isExceptionVal (deepcopyObj v st.nextId).1.val = false := by
    rw [deepcopyObj_val]; exact hv
  have hfind1 : findSeed (seedsFor (setReturnValue st name args kwargs v) name) args kwargs
      = some (deepcopyObj v st.nextId).1 := by
    rw [seedsFor_set]
    exact findSeed_cons_self (args, kwargs) _ _
  refine ⟨?_, ?_, ?_, ?_, ?_⟩
  · rw [recordedCall_found_seed _ _ _ _ _ _ hfind1 hv2]
    simp [Except.map, deepcopyObj_val]
  · intro hc hid hcontra
    rw [recordedCall_found_seed _ _ _ _ _ _ hfind1 hv2] at hcontra
    have hres : (deepcopyObj (deepcopyObj v st.nextId).1
        (setReturnValue st name args kwargs v).nextId).1 = v := by
      exact Except.ok.inj hcontra
    have hoid := congrArg Obj.oid hres
    simp [deepcopyObj, setReturnValue, hc] at hoid
    omega
  · have hfind2 : findSeed (seedsFor (setReturnValue (setReturnValue st name args kwargs w)
        name args kwargs v) name) args kwargs
        = some (deepcopyObj v (setReturnValue st name args kwargs w).nextId).1 := by
      rw [seedsFor_set]
      exact findSeed_cons_self (args, kwargs) _ _
    have hv3 : isExceptionVal (deepcopyObj v (setReturnValue st name args kwargs w).nextId).1.val
        = false := by
      rw [deepcopyObj_val]; exact hv
    rw [recordedCall_found_seed _ _ _ _ _ _ hfind2 hv3]
    simp [Except.map, deepcopyObj_val]
  · intro hne hnone
    have hfind3 : findSeed (seedsFor (setReturnValue st name args kwargs v) name) a2 k2
        = none := by
      rw [seedsFor_set, findSeed_cons_skip _ _ _ _ _ hne]
      exact hnone
    rw [recordedCall_no_seed _ _ _ _ _ hfind3]
    simp [Except.map, deepcopyObj_val]
  · exact recordedCall_seeds_unchanged _ _ _ _ _

/-- Witness for the C4 theorem at concrete inputs: seeding `search_s` at a
concrete signature and calling it back returns the seeded content. -/
theorem seed_then_call_semantics_witness :
    ((recordedCall (setReturnValue emptyRec "search_s" argsFix kwFix implListObj)
        "search_s" (.error .noSuchObject) argsFix kwFix).1.map Obj.val
      = .ok (PyVal.vlist [.astr "a"])) := by
  have h := seed_then_call_semantics emptyRec "search_s" (.error .noSuchObject)
    argsFix kwFix (.vtuple []) (.vdict []) implListObj implListObj (by decide)
  exact h.1

/-! ## Theorems for `simple_bind_s` (claim C3) -/

/-- Reduction of a successful `Except` bind. -/
theorem bindOk {ε α β : Type} (a : α) (f : α → Except ε β) :
    (Except.ok (ε := ε) a >>= f) = f a := rfl

/-- Reduction of a failed `Except` bind. -/
theorem bindErr {ε α β : Type} (e : ε) (f : α → Except ε β) :
    (Except.error (α := α) e >>= f) = .error e := rfl

/-- Reduction of `Functor.map` on a successful `Except`. -/
theorem mapOk {ε α β : Type} (g : α → β) (a : α) :
    (g <$> (Except.ok (ε := ε) a)) = Except.ok (g a) := rfl

/-- Reduction of `pure` into `Except`. -/
theorem pureOk {ε α : Type} (a : α) : (pure a : Except ε α) = .ok a := rfl

/-- Discriminator for `ldap.INVALID_CREDENTIALS`. -/
def isInvalidCredentials : PyErr → Bool
  | .invalidCredentials _ => true
  | _ => false

/-- Fixture: hash verification unavailable or failing (passlib absent, or
the stored value not a recognised crypt hash — both are skipped by
`_compare_s`). -/
def noVerify : String → String → Bool := fun _ _ => false

/-- Fixture: a directory whose only entry has no `userPassword`
attribute. -/
def johnDir : Dir := [("cn=john,ou=example,o=test", [("objectClass", .vlist ["top"])])]

/-- Fixture: the spec scenario directory for bind. -/
def aliceDir : Dir := [("cn=alice,ou=example,o=test", [("userPassword", .vlist ["alicepw"])])]

/-- Claim C3 counterexample: a wrong credential against an existing entry
does not always fail with `InvalidCredentialsError` — for an entry with no
`userPassword` attribute, `simple_bind_s` propagates
`ldap.UNDEFINED_TYPE` from `_compare_s`, so the claim as stated is false
at this input. -/
theorem bind_existing_entry_wrong_cred_counterexample :
    (simpleBindS noVerify { directory := johnDir, boundAs := none }
        "cn=john,ou=example,o=test" "pw").1 = .error .undefinedType
      ∧ isInvalidCredentials .undefinedType = false := by
  exact ⟨by decide, by decide⟩

/-- Claim C3 as amended: bind with empty identity and empty credential
succeeds without touching the store (conjunct 1); an identity with no
entry in the store fails with `NoSuchEntryError`, never
`InvalidCredentialsError` (conjunct 2); an existing entry **without** a
`userPassword` attribute fails with `UndefinedAttributeTypeError`
(conjunct 3); for an existing entry with a `userPassword` value list,
bind succeeds, returns `(97, [])` and records the identity iff the
credential passes hash verification against a stored value or equals a
stored value, and otherwise fails with `InvalidCredentialsError`
(conjunct 4). -/
theorem simple_bind_semantics (verify : String → String → Bool) (st : LdapState)
    (who cred : String) (entry : Entry) (vals : List String) :
    (simpleBindS verify st "" "" = (.ok (97, []), { st with boundAs := some "" }))
    ∧ (¬(who = "" ∧ cred = "") → cidGet st.directory who = none →
        simpleBindS verify st who cred = (.error .noSuchObject, st))
    ∧ (¬(who = "" ∧ cred = "") → cidGet st.directory who = some entry →
        entryGet entry "userPassword" = none →
        simpleBindS verify st who cred = (.error .undefinedType, st))
    ∧ (¬(who = "" ∧ cred = "") → cidGet st.directory who = some entry →
        entryGet entry "userPassword" = some (.vlist vals) →
        ((vals.any (fun p => verify cred p) = true ∨ cred ∈ vals) →
            simpleBindS verify st who cred = (.ok (97, []), { st with boundAs := some who }))
          ∧ (¬(vals.any (fun p => verify cred p) = true ∨ cred ∈ vals) →
            simpleBindS verify st who cred
              = (.error (.invalidCredentials (who ++ ":" ++ cred)), st))) := by
  refine ⟨?_, ?_, ?_, ?_⟩
  · simp [simpleBindS]
  · intro hw hget
    simp [simpleBindS, hw, compareS, hget]
  · intro hw hget hpw
    simp [simpleBindS, hw, compareS, hget, hpw]
  · intro hw hget hpw
    have hcmp : compareS verify st.directory who "userPassword" cred
        = .ok (if vals.any (fun p => verify cred p) = true ∨ cred ∈ vals then 1 else 0) := by
      by_cases h1 : vals.any (fun p => verify cred p) = true
      · have h1x : ∃ x ∈ vals, verify cred x = true := by simpa using h1
        simp [compareS, hget, hpw, attrElems, bindOk, mapOk, pureOk, h1x, h1]
      · have h1x : ¬ ∃ x ∈ vals, verify cred x = true := by simpa using h1
        by_cases h2 : cred ∈ vals
        · simp [compareS, hget, hpw, attrElems, pyInAttr, bindOk, mapOk, pureOk, h1x, h1, h2]
        · simp [compareS, hget, hpw, attrElems, pyInAttr, bindOk, mapOk, pureOk, h1x, h1, h2]
    constructor
    · intro hm
      rw [if_pos hm] at hcmp
      simp [simpleBindS, hw, hcmp]
    · intro hm
      rw [if_neg hm] at hcmp
      simp [simpleBindS, hw, hcmp]

/-- Witness for the amended C3 theorem: the spec scenario — binding as
alice with the right password returns `(97, [])` and records the
identity; with a wrong password it fails with `InvalidCredentialsError`. -/
theorem simple_bind_semantics_witness :
    (simpleBindS noVerify { directory := aliceDir, boundAs := none }
        "cn=alice,ou=example,o=test" "alicepw"
      = (.ok (97, []), { directory := aliceDir, boundAs := some "cn=alice,ou=example,o=test" }))
    ∧ (simpleBindS noVerify { directory := aliceDir, boundAs := none }
        "cn=alice,ou=example,o=test" "wrong"
      = (.error (.invalidCredentials "cn=alice,ou=example,o=test:wrong"),
          { directory := aliceDir, boundAs := none })) := by
  constructor
  · exact ((simple_bind_semantics noVerify { directory := aliceDir, boundAs := none }
      "cn=alice,ou=example,o=test" "alicepw"
      [("userPassword", .vlist ["alicepw"])] ["alicepw"]).2.2.2
      (by decide) (by decide) (by decide)).1 (by decide)
  · exact ((simple_bind_semantics noVerify { directory := aliceDir, boundAs := none }
      "cn=alice,ou=example,o=test" "wrong"
      [("userPassword", .vlist ["alicepw"])] ["alicepw"]).2.2.2
      (by decide) (by decide) (by decide)).2 (by decide)

/-! ## Theorems for `_search_s`, `_modify_s`, `_rename_s`
(claims C1, C5, C6, C7, C10) -/

/-- Fixture: a small directory in the shape of the test suite's, with the
base entry and one child under it. -/
def searchDir : Dir :=
  [("ou=example,o=test", [("objectClass", .vlist ["top"])]),
   ("cn=alice,ou=example,o=test",
     [("userPassword", .vlist ["alicepw"]), ("objectClass", .vlist ["top"])])]

/-- Claim C1 (code bug): an unseeded `search_s` with the unsupported
operator filter `(invalid~=bogus)` does **not** raise SeedRequired — the
gate of `_search_s` checks `|`, `&`, `!`, `))` and `*` counts but never
the `~=`/`<=`/`>=` operators, so the call falls through to the simulated
scan and returns an empty result list. -/
theorem search_unsupported_op_not_seed_required :
    searchS searchDir "ou=example,o=test" 1 "(invalid~=bogus)" none 0 = .ok [] := by
  decide

/-- Fixture: a directory with one entry whose only attribute is
`objectClass`. -/
def replDir : Dir := [("cn=x,o=test", [("objectClass", .vlist ["top"])])]

/-- Claim C6 (code bug): `_modify_s` with `MOD_REPLACE` and value `None`
stores `None` under the key instead of removing the key — after the call
the entry still has `objectClass` as a key (mapped to `None`), so
`"objectClass" not in entry` is false; a non-empty REPLACE does overwrite
the value list. -/
theorem modify_replace_none_keeps_key :
    modifyS replDir "cn=x,o=test" [(2, "objectClass", .vnone)]
        = (.ok (103, []), [("cn=x,o=test", [("objectClass", .vnone)])])
      ∧ ([("objectClass", AttrVal.vnone)] : Entry).map (·.1) = ["objectClass"]
      ∧ modifyS replDir "cn=x,o=test" [(2, "objectClass", .vlist ["a", "b"])]
        = (.ok (103, []), [("cn=x,o=test", [("objectClass", .vlist ["a", "b"])])]) := by
  exact ⟨by decide, by decide, by decide⟩

/-- Fixture: a directory that does not contain the DN being renamed. -/
def renameDir : Dir := [("cn=alice,ou=example,o=test", [("cn", .vlist ["alice"])])]

/-- Claim C7 (code bug): renaming a DN absent from the store executes
`raise self.NO_SUCH_OBJECT` in the KeyError handler; the instance has no
attribute of that name, so the call fails with AttributeError rather than
`ldap.NO_SUCH_OBJECT`, leaving the store unchanged. -/
theorem rename_missing_dn_attribute_error :
    renameS renameDir "cn=missing,ou=example,o=test" "cn=new"
      = (.error .attributeError, renameDir) := by
  decide

/-- Auxiliary: a list holding two distinct elements has length at least
two. -/
theorem two_mem_le_length (l : List Char) (a b : Char) (hab : a ≠ b)
    (ha : a ∈ l) (hb : b ∈ l) : 2 ≤ l.length := by
  match l with
  | [] => cases ha
  | [x] =>
    simp at ha hb
    exact absurd (ha.trans hb.symm) hab
  | x :: y :: rest => simp

/-- A positive character count means the character occurs. -/
theorem countChar_pos_mem (f : List Char) (c : Char) (h : 0 < countChar f c) : c ∈ f := by
  unfold countChar at h
  obtain ⟨x, hx⟩ := List.exists_mem_of_length_pos h
  obtain ⟨hxf, hxc⟩ := List.mem_filter.mp hx
  have hx2 : x = c := by simpa using hxc
  exact hx2 ▸ hxf

/-- The `_search_s` gate fires (SeedRequired) on every filter string that
contains `!`, or more than one `&`, or more than one `|`. -/
theorem seedGate_true_of (f : List Char)
    (h : '!' ∈ f ∨ countChar f '&' > 1 ∨ countChar f '|' > 1) :
    seedGate f = .ok true := by
  match f with
  | [] =>
    rcases h with h | h | h
    · cases h
    · simp [countChar] at h
    · simp [countChar] at h
  | [a] =>
    have hcap : ∀ c : Char, countChar [a] c ≤ 1 := by
      intro c
      have := List.length_filter_le (fun x => decide (x = c)) [a]
      simpa [countChar] using this
    have ha : a = '!' := by
      rcases h with h | h | h
      · exact (by simpa using h : '!' = a).symm
      · exact absurd h (by have := hcap '&'; omega)
      · exact absurd h (by have := hcap '|'; omega)
    subst ha
    decide
  | a :: b :: rest =>
    by_cases h1 : countChar (a :: b :: rest) '|' > 1
    · simp [seedGate, h1]
    · by_cases h2 : countChar (a :: b :: rest) '&' > 1
      · simp [seedGate, h1, h2]
      · have hbang : '!' ∈ a :: b :: rest := by
          rcases h with h | h | h
          · exact h
          · exact absurd h h2
          · exact absurd h h1
        have hlast : ∃ x, (a :: b :: rest).getLast? = some x := by
          cases hq : (a :: b :: rest).getLast? with
          | none =>
            rw [List.getLast?_eq_none_iff] at hq
            cases hq
          | some x => exact ⟨x, rfl⟩
        obtain ⟨x, hx⟩ := hlast
        unfold seedGate
        rw [if_neg h1, if_neg h2]
        have hstep1 : (if countChar (a :: b :: rest) '|' = 1
            then ((a :: b :: rest).get? 1).map (fun c => c != '|') else some false)
            = some (decide (countChar (a :: b :: rest) '|' = 1) && (b != '|')) := by
          by_cases h3 : countChar (a :: b :: rest) '|' = 1 <;> simp [h3]
        rw [hstep1]
        by_cases hbb1 : (decide (countChar (a :: b :: rest) '|' = 1) && (b != '|')) = true
        · rw [hbb1]
        · rw [Bool.not_eq_true] at hbb1
          rw [hbb1]
          have hstep2 : (if countChar (a :: b :: rest) '&' = 1
              then ((a :: b :: rest).get? 1).map (fun c => c != '&') else some false)
              = some (decide (countChar (a :: b :: rest) '&' = 1) && (b != '&')) := by
            by_cases h4 : countChar (a :: b :: rest) '&' = 1 <;> simp [h4]
          rw [hstep2]
          by_cases hbb2 : (decide (countChar (a :: b :: rest) '&' = 1) && (b != '&')) = true
          · rw [hbb2]
          · rw [Bool.not_eq_true] at hbb2
            rw [hbb2, hx, if_pos hbang]

/-- Claim C10: a filter string containing `!`, or more than one `&`, or
more than one `|`, makes an unseeded `search`/`search_s` raise
SeedRequired regardless of the directory contents, the base, the scope
and the projection arguments (conjunct 1: `_search_s` raises it with the
call-argument message), and the recording wrapper re-raises a
SeedRequired coming out of the simulated implementation when no seed
matches (conjunct 2). -/
theorem negation_or_nested_connective_needs_seed (d : Dir) (base : String)
    (scope : Nat) (fstr : String) (attrlist : Option (List String)) (attrsonly : Nat)
    (st : RecState) (name : String) (impl : Except PyErr Obj) (args kwargs : PyVal)
    (m : String)
    (h : '!' ∈ fstr.data ∨ countChar fstr.data '&' > 1 ∨ countChar fstr.data '|' > 1) :
    (searchS d base scope fstr attrlist attrsonly
        = .error (.seedRequired (seedMsg base scope fstr attrlist attrsonly)))
    ∧ (findSeed (seedsFor st name) args kwargs = none →
        impl = .error (.seedRequired m) →
        (recordedCall st name impl args kwargs).1
          = .error (.seedRequired
              ("Seed required for " ++ callRepr name args kwargs ++ ": " ++ m))) := by
  constructor
  · unfold searchS
    rw [seedGate_true_of fstr.data h]
  · intro hfind himpl
    subst himpl
    unfold recordedCall
    simp only [seedsFor] at hfind ⊢
    rw [hfind]

/-- Witness for the C10 theorem: the NOT filter of the test suite raises
SeedRequired on a concrete directory, and the wrapper rewraps it. -/
theorem negation_or_nested_connective_needs_seed_witness :
    (searchS searchDir "ou=example,o=test" 2 "(!(userPassword=alicepw))" none 0
        = .error (.seedRequired
            (seedMsg "ou=example,o=test" 2 "(!(userPassword=alicepw))" none 0)))
    ∧ (recordedCall emptyRec "search_s" (.error (.seedRequired "m")) argsFix kwFix).1
        = .error (.seedRequired
            ("Seed required for " ++ callRepr "search_s" argsFix kwFix ++ ": " ++ "m")) := by
  have h := negation_or_nested_connective_needs_seed searchDir "ou=example,o=test" 2
    "(!(userPassword=alicepw))" none 0 emptyRec "search_s"
    (.error (.seedRequired "m")) argsFix kwFix "m" (by decide)
  exact ⟨h.1, h.2 (by decide) rfl⟩

/-! ## Theorems for scope selection (claim C5) -/

/-- Modelled from the spec for comparison (claim C5): the candidate
relation the spec describes for SUBTREE — `dn` is `base` or one of its
descendants, comparing the comma-separated EID component sequences
case-insensitively. -/
def specSubtreeCandidate (base dn : String) : Bool :=
  (pySplit (lowerStr base).data [',']).isSuffixOf (pySplit (lowerStr dn).data [','])

/-- Fixture: a directory with a DN that ends with the base as a raw string
but is not a descendant of it (`xou=example` vs `ou=example`). -/
def suffixDir : Dir :=
  [("ou=example,o=test", [("objectClass", .vlist ["top"])]),
   ("cn=bob,xou=example,o=test", [("objectClass", .vlist ["top"])])]

/-- Fixture: a directory whose only child of the base carries `=` inside
an attribute value, so its `'='`-piece count differs from its component
count. -/
def eqValueDir : Dir :=
  [("ou=example,o=test", [("objectClass", .vlist ["top"])]),
   ("cn=a=b,ou=example,o=test", [("objectClass", .vlist ["top"])])]

/-- Claim C5 counterexample: scope selection is substring matching, not
component-sequence comparison.  A SUBTREE search returns
`cn=bob,xou=example,o=test`, which is not the base nor one of its
descendants by case-insensitive component comparison (conjunct 1 and 2);
and a ONE-LEVEL search misses `cn=a=b,ou=example,o=test`, an entry
exactly one component below the base, because the code counts `'='`
pieces rather than components (conjunct 3). -/
theorem search_scope_substring_counterexample :
    searchS suffixDir "ou=example,o=test" 2 "(objectClass=top)" none 0
        = .ok [("ou=example,o=test", [("objectClass", .vlist ["top"])]),
               ("cn=bob,xou=example,o=test", [("objectClass", .vlist ["top"])])]
      ∧ specSubtreeCandidate "ou=example,o=test" "cn=bob,xou=example,o=test" = false
      ∧ searchS eqValueDir "ou=example,o=test" 1 "(objectClass=top)" none 0 = .ok [] := by
  exact ⟨by decide, by decide, by decide⟩

/-- Inversion of a successful `Except` bind. -/
theorem bind_ok_inv {ε α β : Type} {x : Except ε α} {f : α → Except ε β} {b : β}
    (h : (x >>= f) = .ok b) : ∃ a, x = .ok a ∧ f a = .ok b := by
  cases x with
  | ok a => exact ⟨a, rfl, h⟩
  | error e => rw [bindErr] at h; cases h

/-- Every pair contributed by `get_results` names the candidate DN it was
called on. -/
theorem getResults_dn (d : Dir) (al : Option (List String)) (ao : Nat) (dn : String)
    (f : List Char) (l : List (String × Entry)) (h : getResults d al ao dn f = .ok l) :
    ∀ p ∈ l, p.1 = dn := by
  unfold getResults at h
  cases hf : getFound d dn f with
  | error e => rw [hf] at h; cases h
  | ok found =>
    rw [hf] at h
    cases found with
    | false =>
      cases h
      intro p hp
      cases hp
    | true =>
      cases hattrs : cidGet d dn with
      | none => rw [hattrs] at h; cases h
      | some a =>
        rw [hattrs] at h
        cases h
        intro p hp
        simp at hp
        rw [hp]

/-- Every pair returned by the scope loop names one of the candidate
DNs. -/
theorem collectResults_mem (d : Dir) (al : Option (List String)) (ao : Nat)
    (f : List Char) (dns : List String) (res : List (String × Entry))
    (h : collectResults d al ao f dns = .ok res) :
    ∀ p ∈ res, p.1 ∈ dns := by
  induction dns generalizing res with
  | nil =>
    unfold collectResults at h
    cases h
    intro p hp
    cases hp
  | cons dn rest ih =>
    unfold collectResults at h
    cases hr : getResults d al ao dn f with
    | error e => rw [hr] at h; cases h
    | ok r =>
      rw [hr] at h
      cases hrs : collectResults d al ao f rest with
      | error e => rw [hrs] at h; cases h
      | ok rs =>
        rw [hrs] at h
        cases h
        intro p hp
        rcases List.mem_append.mp hp with hp | hp
        · exact List.mem_cons.mpr (Or.inl (getResults_dn d al ao dn f r hr p hp))
        · exact List.mem_cons.mpr (Or.inr (ih rs hrs p hp))

/-- Claim C5 as amended: candidate selection is by case-sensitive string
suffix matching and raw `'='`-piece counting, not by case-insensitive
component-sequence comparison: a successful BASE search requires the base
to occur case-sensitively in the key list and every returned pair names
exactly the base; every pair returned by a ONE-LEVEL search names a
stored DN whose `'='`-split has exactly one more piece than the base's
and which ends with the base string; every pair returned by a SUBTREE
search names a stored DN that ends with the base string. -/
theorem search_scope_selection (d : Dir) (base fstr : String)
    (attrlist : Option (List String)) (attrsonly : Nat) (res : List (String × Entry)) :
    (searchS d base 0 fstr attrlist attrsonly = .ok res →
        base ∈ cidKeys d ∧ ∀ p ∈ res, p.1 = base)
    ∧ (searchS d base 1 fstr attrlist attrsonly = .ok res →
        ∀ p ∈ res, p.1 ∈ cidKeys d
          ∧ (pySplit p.1.data ['=']).length = (pySplit base.data ['=']).length + 1
          ∧ pyEndsWith p.1.data base.data = true)
    ∧ (searchS d base 2 fstr attrlist attrsonly = .ok res →
        ∀ p ∈ res, p.1 ∈ cidKeys d ∧ pyEndsWith p.1.data base.data = true) := by
  refine ⟨?_, ?_, ?_⟩
  · intro h
    unfold searchS at h
    cases hg : seedGate fstr.data with
    | error e => rw [hg] at h; cases h
    | ok g =>
      rw [hg] at h
      cases g with
      | true => cases h
      | false =>
        rw [if_pos rfl] at h
        by_cases hmem : base ∈ cidKeys d
        · rw [if_pos hmem] at h
          exact ⟨hmem, getResults_dn d attrlist attrsonly base fstr.data res h⟩
        · rw [if_neg hmem] at h; cases h
  · intro h
    unfold searchS at h
    cases hg : seedGate fstr.data with
    | error e => rw [hg] at h; cases h
    | ok g =>
      rw [hg] at h
      cases g with
      | true => cases h
      | false =>
        rw [if_neg (by decide : ¬(1 : Nat) = 0), if_pos rfl] at h
        intro p hp
        have hmem := collectResults_mem _ _ _ _ _ _ h p hp
        have hmf := List.mem_filter.mp hmem
        refine ⟨hmf.1, ?_⟩
        have hcond := hmf.2
        simp at hcond
        exact hcond
  · intro h
    unfold searchS at h
    cases hg : seedGate fstr.data with
    | error e => rw [hg] at h; cases h
    | ok g =>
      rw [hg] at h
      cases g with
      | true => cases h
      | false =>
        rw [if_neg (by decide : ¬(2 : Nat) = 0), if_neg (by decide : ¬(2 : Nat) = 1),
          if_pos rfl] at h
        intro p hp
        have hmem := collectResults_mem _ _ _ _ _ _ h p hp
        have hmf := List.mem_filter.mp hmem
        refine ⟨hmf.1, ?_⟩
        simpa using hmf.2

/-- Witness for the amended C5 theorem: the SUBTREE conjunct applied to a
concrete directory and result. -/
theorem search_scope_selection_witness :
    ("cn=bob,xou=example,o=test" ∈ cidKeys suffixDir)
      ∧ pyEndsWith "cn=bob,xou=example,o=test".data "ou=example,o=test".data = true := by
  have h := (search_scope_selection suffixDir "ou=example,o=test" "(objectClass=top)"
    none 0 [("ou=example,o=test", [("objectClass", .vlist ["top"])]),
            ("cn=bob,xou=example,o=test", [("objectClass", .vlist ["top"])])]).2.2
    (by decide)
  exact h ("cn=bob,xou=example,o=test", [("objectClass", .vlist ["top"])]) (by decide)

/-! ## The filter engine (filter.py)

The tokenizer splits on `(`, `)` and on `&`, `|`, `!` when immediately
preceded by `(` (the lookbehind of `tokens_re`); `gen_tokens` classifies
each non-empty piece by its text, parsing test expressions with
`Test._parse_expression` (the `TEST_RE` regex, the operator and wildcard
checks, and hex-unescaping of the value).  The grammar
`filter := ( ('&'|'|') filter+ | '!' filter | test )` is parsed by
funcparserlib combinators with backtracking; the embedding below is the
equivalent deterministic recursive-descent parser (the alternatives are
disambiguated by the second token, and `many` stops exactly where the
next `filter` fails, which on every accepting run is at a closing
parenthesis), with a fuel argument bounding the recursion depth —
`tokens + 1` is always sufficient, since every recursive call strictly
shrinks the token list.

`And`/`Or` carry a non-empty term list (`oneplus`), represented by the
mutual type `Forest`. -/

/-- Python `chr(int(hex, 16))` support: hex digit test (`[0-9a-f]` with
`re.I`). -/
def isHexDigit (c : Char) : Bool :=
  ('0' ≤ c ∧ c ≤ '9') ∨ ('a' ≤ c ∧ c ≤ 'f') ∨ ('A' ≤ c ∧ c ≤ 'F')

/-- Numeric value of a hex digit. -/
def hexVal (c : Char) : Nat :=
  if '0' ≤ c ∧ c ≤ '9' then c.toNat - '0'.toNat
  else if 'a' ≤ c ∧ c ≤ 'f' then c.toNat - 'a'.toNat + 10
  else c.toNat - 'A'.toNat + 10

/-- Embedding of `Test.UNESCAPE_RE.sub` — replace every `\xx` hex escape (leftmost,
non-overlapping) by the character it denotes. -/
def unescape : List Char → List Char
  | '\\' :: h1 :: h2 :: rest =>
    if isHexDigit h1 ∧ isHexDigit h2 then
      Char.ofNat (16 * hexVal h1 + hexVal h2) :: unescape rest
    else
      '\\' :: unescape (h1 :: h2 :: rest)
  | c :: rest => c :: unescape rest
  | [] => []

/-- The maximal run `.+` can take at a position: the longest non-newline
prefix. -/
def valueRun (cs : List Char) : List Char := cs.takeWhile (fun c => c ≠ '\n')

/-- The operator alternatives of `TEST_RE` (`[~<>]?=`) at a split point,
greedy two-character form first, then the bare `=`; the following `.+`
must be able to take at least one character. -/
def opSplit : List Char → Option (List Char × List Char)
  | c :: '=' :: rest =>
    if c = '~' ∨ c = '<' ∨ c = '>' then
      if valueRun rest ≠ [] then some ([c, '='], valueRun rest) else none
    else if c = '=' then
      if valueRun ('=' :: rest) ≠ [] then some (['='], valueRun ('=' :: rest)) else none
    else none
  | '=' :: rest => if valueRun rest ≠ [] then some (['='], valueRun rest) else none
  | _ => none

/-- The lazy `(.+?)` of `TEST_RE`: grow the attribute one (non-newline)
character at a time, taking the first position where the operator and a
value match. -/
def testScan : List Char → List Char → Option (List Char × List Char × List Char)
  | acc, cs =>
    match opSplit cs with
    | some (op, v) => some (acc, op, v)
    | none =>
      match cs with
      | [] => none
      | c :: rest => if c = '\n' then none else testScan (acc ++ [c]) rest

/-- Embedding of `TEST_RE.match(content)`: the attribute (at least one character), the
operator and the value. -/
def testRegexMatch : List Char → Option (List Char × List Char × List Char)
  | [] => none
  | c :: rest => if c = '\n' then none else testScan [c] rest

/-- Embedding of `Test._parse_expression` (filter.py 110-125): FILTER_ERROR when the
regex does not match, UnsupportedOp for a non-`=` operator or an embedded
wildcard, then hex-unescaping of the value.  Returns the attribute and
the unescaped value. -/
def testParse (content : List Char) : Except PyErr (List Char × List Char) :=
  match testRegexMatch content with
  | none => .error .filterError
  | some (attr, op, value) =>
    if op ≠ ['='] then .error .unsupportedOp
    else if '*' ∈ value ∧ value ≠ ['*'] then .error .unsupportedOp
    else .ok (attr, unescape value)

/-- The token split of `tokens_re.split` + the skipping of empty pieces
in `gen_tokens`: walk the characters, splitting on parens always and on
`&`/`|`/`!` exactly when the previous character was `(`. -/
def scanPieces : List Char → Option Char → List Char → List (List Char)
  | [], _, cur => if cur.isEmpty then [] else [cur]
  | c :: cs, prev, cur =>
    if c = '(' ∨ c = ')' then
      (if cur.isEmpty then [] else [cur]) ++ [[c]] ++ scanPieces cs (some c) []
    else if (c = '&' ∨ c = '|' ∨ c = '!') ∧ prev = some '(' then
      (if cur.isEmpty then [] else [cur]) ++ [[c]] ++ scanPieces cs (some c) []
    else
      scanPieces cs (some c) (cur ++ [c])

/-- A token of the filter grammar.  A test token keeps its raw content
(for `unparse`) alongside the attribute and unescaped value its
constructor computed. -/
inductive Tok where
  | lp
  | rp
  | andT
  | orT
  | notT
  | test (content attr value : List Char)
  deriving Repr, DecidableEq

/-- Embedding of `gen_tokens` classification of one non-empty piece, by its text (as
in the Python source, which compares the substring itself). -/
def genTok (piece : List Char) : Except PyErr Tok :=
  if piece = ['('] then .ok .lp
  else if piece = ['&'] then .ok .andT
  else if piece = ['|'] then .ok .orT
  else if piece = ['!'] then .ok .notT
  else if piece = [')'] then .ok .rp
  else
    match testParse piece with
    | .error e => .error e
    | .ok (attr, value) => .ok (.test piece attr value)

/-- Token generation over all pieces, propagating the first exception. -/
def genToks : List (List Char) → Except PyErr (List Tok)
  | [] => .ok []
  | p :: ps =>
    match genTok p with
    | .error e => .error e
    | .ok t =>
      match genToks ps with
      | .error e => .error e
      | .ok ts => .ok (t :: ts)

/-- Embedding of `tokenize(filterstr)` (filter.py 155-158). -/
def tokenizeF (cs : List Char) : Except PyErr (List Tok) :=
  genToks (scanPieces cs none [])

/-! The filter expression tree (`And`/`Or`/`Not`/`Test` of filter.py).
`Forest` is the non-empty term list `oneplus` produces. -/
mutual
inductive FTree where
  | andT (ts : Forest)
  | orT (ts : Forest)
  | notT (t : FTree)
  | test (content attr value : List Char)

inductive Forest where
  | one (t : FTree)
  | cons (t : FTree) (ts : Forest)
end

/-! `unparse` (filter.py 53-54, 66-67, 79-80, 127-128). -/
mutual
def unparseF : FTree → List Char
  | .andT ts => '(' :: '&' :: (unparseForest ts ++ [')'])
  | .orT ts => '(' :: '|' :: (unparseForest ts ++ [')'])
  | .notT t => '(' :: '!' :: (unparseF t ++ [')'])
  | .test c _ _ => '(' :: (c ++ [')'])

def unparseForest : Forest → List Char
  | .one t => unparseF t
  | .cons t ts => unparseF t ++ unparseForest ts
end

/-! `matches(dn, attrs)` (filter.py 56-57, 69-70, 91-92, 130-140): And is
the conjunction of its terms, Or the disjunction, Not the negation; Test
looks the attribute up in the (plain, case-sensitive) attrs dict — a
missing attribute is false, the wildcard value requires a non-empty value
list, and otherwise the value must occur in the list.  The `dn` argument
is accepted and ignored, as in the source. -/
mutual
def matchesF (dn : String) (attrs : List (String × List String)) : FTree → Bool
  | .andT ts => matchesAll dn attrs ts
  | .orT ts => matchesAny dn attrs ts
  | .notT t => !(matchesF dn attrs t)
  | .test _ a v =>
    match (attrs.find? (fun p => p.1 = String.mk a)).map (·.2) with
    | none => false
    | some values =>
      if v = ['*'] then values.length > 0
      else values.any (fun w => w = String.mk v)

def matchesAll (dn : String) (attrs : List (String × List String)) : Forest → Bool
  | .one t => matchesF dn attrs t
  | .cons t ts => matchesF dn attrs t && matchesAll dn attrs ts

def matchesAny (dn : String) (attrs : List (String × List String)) : Forest → Bool
  | .one t => matchesF dn attrs t
  | .cons t ts => matchesF dn attrs t || matchesAny dn attrs ts
end

/-! The deterministic equivalent of the funcparserlib grammar (filter.py
196-216): `parseF` parses one `filter`, `parseForest` parses `filter+`
(`oneplus`: the first term must parse; further terms are taken as long as
a `filter` parses, exactly as `many` stops at the first failure).  The
fuel decreases on every call; `tokens + 1` is sufficient (each recursion
strictly shrinks the token list, and `parseForest` is only entered after
two tokens have been consumed). -/
mutual
def parseF : Nat → List Tok → Option (FTree × List Tok)
  | 0, _ => none
  | n + 1, toks =>
    match toks with
    | .lp :: .andT :: rest =>
      match parseForest n rest with
      | some (ts, .rp :: r2) => some (.andT ts, r2)
      | _ => none
    | .lp :: .orT :: rest =>
      match parseForest n rest with
      | some (ts, .rp :: r2) => some (.orT ts, r2)
      | _ => none
    | .lp :: .notT :: rest =>
      match parseF n rest with
      | some (t, .rp :: r2) => some (.notT t, r2)
      | _ => none
    | .lp :: .test c a v :: .rp :: r2 => some (.test c a v, r2)
    | _ => none

def parseForest : Nat → List Tok → Option (Forest × List Tok)
  | 0, _ => none
  | n + 1, toks =>
    match parseF n toks with
    | none => none
    | some (t, r) =>
      match parseForest n r with
      | some (ts, r2) => some (.cons t ts, r2)
      | none => some (.one t, r)
end

/-- Embedding of `parse(filterstr)` (filter.py 185-189): tokenize, parse one filter,
require all tokens consumed (`skip(finished)`); a parse failure is
`ldap.FILTER_ERROR`, and UnsupportedOp from tokenization propagates. -/
def parseFilter (s : String) : Except PyErr FTree :=
  match tokenizeF s.data with
  | .error e => .error e
  | .ok toks =>
    match parseF (toks.length + 1) toks with
    | some (t, []) => .ok t
    | _ => .error .filterError

/-! ## Round-trip infrastructure (claim C8)

`goodContent` collects what is true of the raw content of every test
node a successful parse produces: non-empty (tokenizer pieces are
non-empty), free of parentheses (the tokenizer always splits on them),
not one of the five one-character token texts (those become operator
tokens), its first character not an operator character (in a parsed
token stream every test token directly follows `(`, where the lookbehind
would have split an operator off), and re-parsed by `Test` to exactly
the stored attribute and value.  These facts are precisely what make
`unparse` re-tokenize to the same token list. -/

/-- Invariants of the content of a parsed test node. -/
def goodContent (c a v : List Char) : Prop :=
  c ≠ [] ∧ '(' ∉ c ∧ ')' ∉ c ∧ c ≠ ['&'] ∧ c ≠ ['|'] ∧ c ≠ ['!']
    ∧ (∀ x, c.head? = some x → ¬(x = '&' ∨ x = '|' ∨ x = '!'))
    ∧ testParse c = .ok (a, v)

/-! Well-formedness of a tree, as produced by `parse`. -/
mutual
def wfT : FTree → Prop
  | .andT ts => wfForest ts
  | .orT ts => wfForest ts
  | .notT t => wfT t
  | .test c a v => goodContent c a v

def wfForest : Forest → Prop
  | .one t => wfT t
  | .cons t ts => wfT t ∧ wfForest ts
end

/-! The pieces `tokens_re.split` produces for an unparsed tree, and the
token list they generate. -/
mutual
def piecesF : FTree → List (List Char)
  | .andT ts => ['('] :: ['&'] :: (piecesForest ts ++ [[')']])
  | .orT ts => ['('] :: ['|'] :: (piecesForest ts ++ [[')']])
  | .notT t => ['('] :: ['!'] :: (piecesF t ++ [[')']])
  | .test c _ _ => [['('], c, [')']]

def piecesForest : Forest → List (List Char)
  | .one t => piecesF t
  | .cons t ts => piecesF t ++ piecesForest ts
end

mutual
def tokListF : FTree → List Tok
  | .andT ts => .lp :: .andT :: (tokListForest ts ++ [.rp])
  | .orT ts => .lp :: .orT :: (tokListForest ts ++ [.rp])
  | .notT t => .lp :: .notT :: (tokListF t ++ [.rp])
  | .test c a v => [.lp, .test c a v, .rp]

def tokListForest : Forest → List Tok
  | .one t => tokListF t
  | .cons t ts => tokListF t ++ tokListForest ts
end

/-! Token-list length bounds (each filter consumes at least three
tokens). -/
mutual
theorem tokListF_len (t : FTree) : 3 ≤ (tokListF t).length := by
  match t with
  | .andT ts => simp [tokListF]
  | .orT ts => simp [tokListF]
  | .notT t1 => simp [tokListF]
  | .test c a v => simp [tokListF]

theorem tokListForest_len (ts : Forest) : 3 ≤ (tokListForest ts).length := by
  match ts with
  | .one t => exact tokListF_len t
  | .cons t ts1 =>
    have := tokListF_len t
    simp [tokListForest]
    omega
end

/-- Scanning a parenthesis-free chunk appends it to the current chunk and
moves the previous-character marker to its last character (which is one
of its members); the first character must not be an operator when the
previous character is `(`. -/
theorem scan_chunk (c : List Char) :
    c ≠ [] → '(' ∉ c → ')' ∉ c →
    ∀ cs prev cur, (∀ x, c.head? = some x → prev = some '(' →
        ¬(x = '&' ∨ x = '|' ∨ x = '!')) →
    ∃ lc, lc ∈ c ∧ scanPieces (c ++ cs) prev cur = scanPieces cs (some lc) (cur ++ c) := by
  induction c with
  | nil => intro hne; cases hne rfl
  | cons c0 ctail ih =>
    intro _ hp1 hp2 cs prev cur hh
    have hc0p1 : c0 ≠ '(' := fun h => hp1 (h ▸ List.mem_cons_self c0 ctail)
    have hc0p2 : c0 ≠ ')' := fun h => hp2 (h ▸ List.mem_cons_self c0 ctail)
    have hstep : scanPieces ((c0 :: ctail) ++ cs) prev cur
        = scanPieces (ctail ++ cs) (some c0) (cur ++ [c0]) := by
      show scanPieces (c0 :: (ctail ++ cs)) prev cur = _
      simp only [scanPieces]
      rw [if_neg (by simp [hc0p1, hc0p2])]
      rw [if_neg ?hcond]
      case hcond =>
        intro hcontra
        rcases hcontra with ⟨hop, hprev⟩
        exact hh c0 rfl hprev hop
    rcases hct : ctail with _ | ⟨c1, crest⟩
    · refine ⟨c0, List.mem_cons_self c0 [], ?_⟩
      subst hct
      rw [hstep]
      simp
    · have hne2 : ctail ≠ [] := by rw [hct]; simp
      have hp1t : '(' ∉ ctail := fun h => hp1 (List.mem_cons_of_mem c0 h)
      have hp2t : ')' ∉ ctail := fun h => hp2 (List.mem_cons_of_mem c0 h)
      rw [← hct]
      obtain ⟨lc, hlc, heq⟩ := ih hne2 hp1t hp2t cs (some c0) (cur ++ [c0])
        (by
          intro x hx hprev
          exact absurd (Option.some.inj hprev) hc0p1)
      refine ⟨lc, List.mem_cons_of_mem c0 hlc, ?_⟩
      rw [hstep, heq]
      simp

/-- Scanning an opening parenthesis with an empty current chunk emits the
`(` piece. -/
theorem scan_open (rest : List Char) (prev : Option Char) :
    scanPieces ('(' :: rest) prev [] = ['('] :: scanPieces rest (some '(') [] := by
  simp [scanPieces]

/-- Scanning a closing parenthesis flushes the current chunk and emits
the `)` piece. -/
theorem scan_close (rest : List Char) (prev : Option Char) (cur : List Char) :
    scanPieces (')' :: rest) prev cur
      = (if cur.isEmpty then [] else [cur]) ++ [[')']] ++ scanPieces rest (some ')') [] := by
  simp [scanPieces]

/-- Scanning an operator character right after `(` emits it as its own
piece. -/
theorem scan_op (c : Char) (hc : c = '&' ∨ c = '|' ∨ c = '!') (rest : List Char) :
    scanPieces (c :: rest) (some '(') [] = [c] :: scanPieces rest (some c) [] := by
  have hcp : ¬(c = '(' ∨ c = ')') := by
    rcases hc with h | h | h <;> subst h <;> decide
  simp [scanPieces, hcp, hc]

/-! The scanner lemma: the pieces of an unparsed well-formed tree are its
`piecesF`, independently of the previous-character state, and the scan
continues with `)` as the previous character. -/
mutual
theorem scan_unparse (t : FTree) (hw : wfT t) (cs : List Char) (prev : Option Char) :
    scanPieces (unparseF t ++ cs) prev [] = piecesF t ++ scanPieces cs (some ')') [] := by
  match t with
  | .test c a v =>
    have hg : goodContent c a v := by simpa [wfT] using hw
    obtain ⟨hne, hp1, hp2, _, _, _, hhead, _⟩ := hg
    have h0 : unparseF (.test c a v) ++ cs = '(' :: (c ++ (')' :: cs)) := by
      simp [unparseF]
    rw [h0, scan_open]
    obtain ⟨lc, hlc, heq⟩ := scan_chunk c hne hp1 hp2 (')' :: cs) (some '(') []
      (fun x hx _ => hhead x hx)
    rw [heq, scan_close]
    have hcne : c.isEmpty = false := by
      cases c
      · cases hne rfl
      · rfl
    simp [piecesF, hcne]
  | .andT ts =>
    have hwf : wfForest ts := by simpa [wfT] using hw
    have h0 : unparseF (.andT ts) ++ cs = '(' :: '&' :: (unparseForest ts ++ (')' :: cs)) := by
      simp [unparseF]
    rw [h0, scan_open, scan_op '&' (Or.inl rfl)]
    rw [scan_unparseForest ts hwf (')' :: cs) (some '&')]
    rw [scan_close]
    simp [piecesF]
  | .orT ts =>
    have hwf : wfForest ts := by simpa [wfT] using hw
    have h0 : unparseF (.orT ts) ++ cs = '(' :: '|' :: (unparseForest ts ++ (')' :: cs)) := by
      simp [unparseF]
    rw [h0, scan_open, scan_op '|' (Or.inr (Or.inl rfl))]
    rw [scan_unparseForest ts hwf (')' :: cs) (some '|')]
    rw [scan_close]
    simp [piecesF]
  | .notT t1 =>
    have hwf : wfT t1 := by simpa [wfT] using hw
    have h0 : unparseF (.notT t1) ++ cs = '(' :: '!' :: (unparseF t1 ++ (')' :: cs)) := by
      simp [unparseF]
    rw [h0, scan_open, scan_op '!' (Or.inr (Or.inr rfl))]
    rw [scan_unparse t1 hwf (')' :: cs) (some '!')]
    rw [scan_close]
    simp [piecesF]

theorem scan_unparseForest (ts : Forest) (hw : wfForest ts) (cs : List Char)
    (prev : Option Char) :
    scanPieces (unparseForest ts ++ cs) prev []
      = piecesForest ts ++ scanPieces cs (some ')') [] := by
  match ts with
  | .one t =>
    have h1 : wfT t := by simpa [wfForest] using hw
    simpa [unparseForest, piecesForest] using scan_unparse t h1 cs prev
  | .cons t ts1 =>
    have h1 : wfT t ∧ wfForest ts1 := by simpa [wfForest] using hw
    have h0 : unparseForest (.cons t ts1) ++ cs = unparseF t ++ (unparseForest ts1 ++ cs) := by
      simp [unparseForest]
    rw [h0, scan_unparse t h1.1 (unparseForest ts1 ++ cs) prev]
    rw [scan_unparseForest ts1 h1.2 cs (some ')')]
    simp [piecesForest]
end

/-- A good chunk generates exactly its test token. -/
theorem genTok_chunk (c a v : List Char) (hg : goodContent c a v) :
    genTok c = .ok (.test c a v) := by
  obtain ⟨hne, hp1, hp2, hs1, hs2, hs3, _, htp⟩ := hg
  have hlp : c ≠ ['('] := by
    intro h
    exact hp1 (h ▸ List.mem_cons_self '(' [])
  have hrp : c ≠ [')'] := by
    intro h
    exact hp2 (h ▸ List.mem_cons_self ')' [])
  unfold genTok
  rw [if_neg hlp, if_neg hs1, if_neg hs2, if_neg hs3, if_neg hrp, htp]

/-- Token generation distributes over piece concatenation. -/
theorem genToks_append (l1 l2 : List (List Char)) (t1 t2 : List Tok)
    (h1 : genToks l1 = .ok t1) (h2 : genToks l2 = .ok t2) :
    genToks (l1 ++ l2) = .ok (t1 ++ t2) := by
  induction l1 generalizing t1 with
  | nil =>
    unfold genToks at h1
    cases h1
    simpa using h2
  | cons p ps ih =>
    rw [List.cons_append]
    unfold genToks at h1 ⊢
    cases hp : genTok p with
    | error e => rw [hp] at h1; cases h1
    | ok tk =>
      rw [hp] at h1
      cases hps : genToks ps with
      | error e => rw [hps] at h1; cases h1
      | ok ts =>
        rw [hps] at h1
        cases h1
        rw [ih ts hps]
        rfl

/-! Token generation over the pieces of a well-formed tree yields its
token list. -/
mutual
theorem genToks_pieces (t : FTree) (hw : wfT t) :
    genToks (piecesF t) = .ok (tokListF t) := by
  match t with
  | .test c a v =>
    have hg : goodContent c a v := by simpa [wfT] using hw
    have h2 : genTok c = .ok (.test c a v) := genTok_chunk c a v hg
    have h3 : genToks [[')']] = Except.ok [Tok.rp] := rfl
    have hin : genToks [c, [')']] = .ok [.test c a v, .rp] := by
      unfold genToks
      rw [h2, h3]
    show genToks [['('], c, [')']] = _
    unfold genToks
    rw [show genTok ['('] = Except.ok Tok.lp from rfl, hin]
    rfl
  | .andT ts =>
    have hwf : wfForest ts := by simpa [wfT] using hw
    have h2 : genToks (piecesForest ts ++ [[')']]) = .ok (tokListForest ts ++ [.rp]) :=
      genToks_append _ _ _ _ (genToks_piecesForest ts hwf) rfl
    have h0 : piecesF (.andT ts) = [['('], ['&']] ++ (piecesForest ts ++ [[')']]) := by
      simp [piecesF]
    rw [h0, genToks_append [['('], ['&']] _ [.lp, .andT] _ rfl h2]
    simp [tokListF]
  | .orT ts =>
    have hwf : wfForest ts := by simpa [wfT] using hw
    have h2 : genToks (piecesForest ts ++ [[')']]) = .ok (tokListForest ts ++ [.rp]) :=
      genToks_append _ _ _ _ (genToks_piecesForest ts hwf) rfl
    have h0 : piecesF (.orT ts) = [['('], ['|']] ++ (piecesForest ts ++ [[')']]) := by
      simp [piecesF]
    rw [h0, genToks_append [['('], ['|']] _ [.lp, .orT] _ rfl h2]
    simp [tokListF]
  | .notT t1 =>
    have hwf : wfT t1 := by simpa [wfT] using hw
    have h2 : genToks (piecesF t1 ++ [[')']]) = .ok (tokListF t1 ++ [.rp]) :=
      genToks_append _ _ _ _ (genToks_pieces t1 hwf) rfl
    have h0 : piecesF (.notT t1) = [['('], ['!']] ++ (piecesF t1 ++ [[')']]) := by
      simp [piecesF]
    rw [h0, genToks_append [['('], ['!']] _ [.lp, .notT] _ rfl h2]
    simp [tokListF]

theorem genToks_piecesForest (ts : Forest) (hw : wfForest ts) :
    genToks (piecesForest ts) = .ok (tokListForest ts) := by
  match ts with
  | .one t =>
    have h1 : wfT t := by simpa [wfForest] using hw
    simpa [piecesForest, tokListForest] using genToks_pieces t h1
  | .cons t ts1 =>
    have h1 : wfT t ∧ wfForest ts1 := by simpa [wfForest] using hw
    have h0 : piecesForest (.cons t ts1) = piecesF t ++ piecesForest ts1 := by
      simp [piecesForest]
    rw [h0, genToks_append _ _ _ _ (genToks_pieces t h1.1) (genToks_piecesForest ts1 h1.2)]
    simp [tokListForest]
end

/-- A `filter` never starts at a closing parenthesis or at the end of the
tokens. -/
theorem parseF_stop (n : Nat) (r : List Tok) :
    parseF n (.rp :: r) = none ∧ parseF n [] = none := by
  cases n <;> exact ⟨rfl, rfl⟩

/-- An `oneplus` loop stops at a closing parenthesis or at the end. -/
theorem parseForest_stop (m : Nat) (rest : List Tok)
    (hstop : rest = [] ∨ ∃ r', rest = .rp :: r') :
    parseForest m rest = none := by
  rcases hstop with rfl | ⟨r', rfl⟩
  · cases m with
    | zero => rfl
    | succ k =>
      have h1 : parseF k [] = none := (parseF_stop k []).2
      show parseForest (k + 1) [] = none
      unfold parseForest
      rw [h1]
  · cases m with
    | zero => rfl
    | succ k =>
      have h1 : parseF k (.rp :: r') = none := (parseF_stop k r').1
      show parseForest (k + 1) (.rp :: r') = none
      unfold parseForest
      rw [h1]

/-! Parser completeness: with sufficient fuel, the token list of a
well-formed tree followed by any remainder parses back to exactly that
tree, leaving the remainder.  (`parseForest` additionally needs the
remainder to start with `)` or be empty, which is where `many` stops.) -/
mutual
theorem parseF_complete (t : FTree) (hw : wfT t) :
    ∀ n rest, (tokListF t ++ rest).length + 1 ≤ n →
    parseF n (tokListF t ++ rest) = some (t, rest) := by
  match t with
  | .test c a v =>
    intro n rest hn
    cases n with
    | zero => exact absurd hn (by omega)
    | succ m =>
      show parseF (m + 1) (.lp :: .test c a v :: .rp :: rest) = some (.test c a v, rest)
      rfl
  | .andT ts =>
    intro n rest hn
    cases n with
    | zero => exact absurd hn (by omega)
    | succ m =>
      have hwf : wfForest ts := by simpa [wfT] using hw
      have hlist : tokListF (.andT ts) ++ rest
          = .lp :: .andT :: (tokListForest ts ++ (.rp :: rest)) := by
        simp [tokListF]
      rw [hlist]
      have hlen : (tokListF (FTree.andT ts) ++ rest).length
          = (tokListForest ts ++ (Tok.rp :: rest)).length + 2 := by
        simp [tokListF]
      have hfuel : (tokListForest ts ++ (.rp :: rest)).length + 2 ≤ m := by
        omega
      have hfc := parseForest_complete ts hwf m (.rp :: rest) hfuel
        (Or.inr ⟨rest, rfl⟩)
      have hred : parseF (m + 1) (.lp :: .andT :: (tokListForest ts ++ (.rp :: rest)))
          = (match parseForest m (tokListForest ts ++ (.rp :: rest)) with
             | some (ts1, .rp :: r2) => some (.andT ts1, r2)
             | _ => none) := rfl
      rw [hred, hfc]
  | .orT ts =>
    intro n rest hn
    cases n with
    | zero => exact absurd hn (by omega)
    | succ m =>
      have hwf : wfForest ts := by simpa [wfT] using hw
      have hlist : tokListF (.orT ts) ++ rest
          = .lp :: .orT :: (tokListForest ts ++ (.rp :: rest)) := by
        simp [tokListF]
      rw [hlist]
      have hlen : (tokListF (FTree.orT ts) ++ rest).length
          = (tokListForest ts ++ (Tok.rp :: rest)).length + 2 := by
        simp [tokListF]
      have hfuel : (tokListForest ts ++ (.rp :: rest)).length + 2 ≤ m := by
        omega
      have hfc := parseForest_complete ts hwf m (.rp :: rest) hfuel
        (Or.inr ⟨rest, rfl⟩)
      have hred : parseF (m + 1) (.lp :: .orT :: (tokListForest ts ++ (.rp :: rest)))
          = (match parseForest m (tokListForest ts ++ (.rp :: rest)) with
             | some (ts1, .rp :: r2) => some (.orT ts1, r2)
             | _ => none) := rfl
      rw [hred, hfc]
  | .notT t1 =>
    intro n rest hn
    cases n with
    | zero => exact absurd hn (by omega)
    | succ m =>
      have hwf : wfT t1 := by simpa [wfT] using hw
      have hlist : tokListF (.notT t1) ++ rest
          = .lp :: .notT :: (tokListF t1 ++ (.rp :: rest)) := by
        simp [tokListF]
      rw [hlist]
      have hlen : (tokListF (FTree.notT t1) ++ rest).length
          = (tokListF t1 ++ (Tok.rp :: rest)).length + 2 := by
        simp [tokListF]
      have hfuel : (tokListF t1 ++ (.rp :: rest)).length + 1 ≤ m := by
        omega
      have hfc := parseF_complete t1 hwf m (.rp :: rest) hfuel
      have hred : parseF (m + 1) (.lp :: .notT :: (tokListF t1 ++ (.rp :: rest)))
          = (match parseF m (tokListF t1 ++ (.rp :: rest)) with
             | some (t2, .rp :: r2) => some (.notT t2, r2)
             | _ => none) := rfl
      rw [hred, hfc]

theorem parseForest_complete (ts : Forest) (hw : wfForest ts) :
    ∀ n rest, (tokListForest ts ++ rest).length + 2 ≤ n →
    (rest = [] ∨ ∃ r', rest = .rp :: r') →
    parseForest n (tokListForest ts ++ rest) = some (ts, rest) := by
  match ts with
  | .one t =>
    intro n rest hn hstop
    cases n with
    | zero => exact absurd hn (by omega)
    | succ m =>
      have hwt : wfT t := by simpa [wfForest] using hw
      have hlist : tokListForest (.one t) = tokListF t := by
        simp [tokListForest]
      rw [hlist] at hn ⊢
      have h1 : parseF m (tokListF t ++ rest) = some (t, rest) :=
        parseF_complete t hwt m rest (by omega)
      have hred : parseForest (m + 1) (tokListF t ++ rest)
          = (match parseF m (tokListF t ++ rest) with
             | none => none
             | some (t2, r) =>
               match parseForest m r with
               | some (ts2, r2) => some (.cons t2 ts2, r2)
               | none => some (.one t2, r)) := rfl
      rw [hred, h1]
      show (match parseForest m rest with
            | some (ts2, r2) => some (Forest.cons t ts2, r2)
            | none => some (Forest.one t, rest)) = some (Forest.one t, rest)
      rw [parseForest_stop m rest hstop]
  | .cons t ts1 =>
    intro n rest hn hstop
    cases n with
    | zero => exact absurd hn (by omega)
    | succ m =>
      have hw1 : wfT t ∧ wfForest ts1 := by simpa [wfForest] using hw
      have hlist : tokListForest (.cons t ts1) ++ rest
          = tokListF t ++ (tokListForest ts1 ++ rest) := by
        simp [tokListForest]
      rw [hlist] at hn ⊢
      have hlen : (tokListF t ++ (tokListForest ts1 ++ rest)).length
          = (tokListF t).length + (tokListForest ts1 ++ rest).length := by
        simp
      have h1 : parseF m (tokListF t ++ (tokListForest ts1 ++ rest))
          = some (t, tokListForest ts1 ++ rest) :=
        parseF_complete t hw1.1 m (tokListForest ts1 ++ rest) (by omega)
      have hlen3 := tokListF_len t
      have h2 : parseForest m (tokListForest ts1 ++ rest) = some (ts1, rest) :=
        parseForest_complete ts1 hw1.2 m rest (by omega) hstop
      have hred : parseForest (m + 1) (tokListF t ++ (tokListForest ts1 ++ rest))
          = (match parseF m (tokListF t ++ (tokListForest ts1 ++ rest)) with
             | none => none
             | some (t2, r) =>
               match parseForest m r with
               | some (ts2, r2) => some (.cons t2 ts2, r2)
               | none => some (.one t2, r)) := rfl
      rw [hred, h1]
      show (match parseForest m (tokListForest ts1 ++ rest) with
            | some (ts2, r2) => some (Forest.cons t ts2, r2)
            | none => some (Forest.one t, tokListForest ts1 ++ rest))
          = some (Forest.cons t ts1, rest)
      rw [h2]
end

/-- What is true of every token a tokenization produces (trivial for
non-test tokens). -/
def TokGood : Tok → Prop
  | .test c a v => c ≠ [] ∧ '(' ∉ c ∧ ')' ∉ c ∧ c ≠ ['&'] ∧ c ≠ ['|'] ∧ c ≠ ['!']
      ∧ testParse c = .ok (a, v)
  | _ => True

/-- The adjacency fact the tokenizer guarantees: a test token directly
after `(` cannot start with an operator character (the lookbehind would
have split it). -/
def RTok (t1 t2 : Tok) : Prop :=
  ∀ c a v, t1 = .lp → t2 = .test c a v →
    ∀ x, c.head? = some x → ¬(x = '&' ∨ x = '|' ∨ x = '!')

/-- The parsers only ever leave a suffix of their input unconsumed. -/
theorem parse_suffix (n : Nat) :
    (∀ toks t r, parseF n toks = some (t, r) → r <:+ toks)
    ∧ (∀ toks ts r, parseForest n toks = some (ts, r) → r <:+ toks) := by
  induction n with
  | zero =>
    refine ⟨?_, ?_⟩
    · intro toks t r h
      cases h
    · intro toks ts r h
      cases h
  | succ m ih =>
    have hcons3 : ∀ (a b : Tok) (rest r2 : List Tok), r2 <:+ rest → r2 <:+ a :: b :: rest := by
      intro a b rest r2 hs
      exact hs.trans ((List.suffix_cons _ _).trans (List.suffix_cons _ _))
    refine ⟨?_, ?_⟩
    · intro toks t r h
      simp only [parseF] at h
      split at h
      · split at h
        · rename_i ts1 r2 heq
          cases h
          exact hcons3 _ _ _ _ ((List.suffix_cons _ _).trans (ih.2 _ _ _ heq))
        · cases h
      · split at h
        · rename_i ts1 r2 heq
          cases h
          exact hcons3 _ _ _ _ ((List.suffix_cons _ _).trans (ih.2 _ _ _ heq))
        · cases h
      · split at h
        · rename_i t1 r2 heq
          cases h
          exact hcons3 _ _ _ _ ((List.suffix_cons _ _).trans (ih.1 _ _ _ heq))
        · cases h
      · cases h
        exact hcons3 _ _ _ _ (List.suffix_cons _ _)
      · cases h
    · intro toks ts r h
      simp only [parseForest] at h
      split at h
      · cases h
      · rename_i t1 r1 hf
        split at h
        · rename_i ts2 r2 heq
          cases h
          exact ((ih.2 _ _ _ heq).trans (ih.1 _ _ _ hf))
        · cases h
          exact ih.1 _ _ _ hf

/-- Parser soundness: a tree parsed from a token list whose tokens are
good and whose adjacencies satisfy `RTok` is well formed. -/
theorem parse_sound (n : Nat) :
    (∀ toks t r, parseF n toks = some (t, r) →
      (∀ tk ∈ toks, TokGood tk) → List.Chain' RTok toks → wfT t)
    ∧ (∀ toks ts r, parseForest n toks = some (ts, r) →
      (∀ tk ∈ toks, TokGood tk) → List.Chain' RTok toks → wfForest ts) := by
  induction n with
  | zero =>
    refine ⟨?_, ?_⟩
    · intro toks t r h
      cases h
    · intro toks ts r h
      cases h
  | succ m ih =>
    refine ⟨?_, ?_⟩
    · intro toks t r h hg hc
      simp only [parseF] at h
      split at h
      · split at h
        · rename_i ts1 r2 heq
          cases h
          simp only [wfT]
          refine ih.2 _ _ _ heq ?_ ?_
          · intro tk htk
            exact hg tk (by simp [htk])
          · exact hc.tail.tail
        · cases h
      · split at h
        · rename_i ts1 r2 heq
          cases h
          simp only [wfT]
          refine ih.2 _ _ _ heq ?_ ?_
          · intro tk htk
            exact hg tk (by simp [htk])
          · exact hc.tail.tail
        · cases h
      · split at h
        · rename_i t1 r2 heq
          cases h
          simp only [wfT]
          refine ih.1 _ _ _ heq ?_ ?_
          · intro tk htk
            exact hg tk (by simp [htk])
          · exact hc.tail.tail
        · cases h
      · rename_i c a v r2
        cases h
        simp only [wfT]
        have hgood := hg (.test c a v) (by simp)
        simp only [TokGood] at hgood
        obtain ⟨h1, h2, h3, h4, h5, h6, h7⟩ := hgood
        have hhead := (List.chain'_cons.mp hc).1 c a v rfl rfl
        exact ⟨h1, h2, h3, h4, h5, h6, hhead, h7⟩
      · cases h
    · intro toks ts r h hg hc
      simp only [parseForest] at h
      split at h
      · cases h
      · rename_i t1 r1 hf
        have hw1 : wfT t1 := ih.1 _ _ _ hf hg hc
        have hsuf : r1 <:+ toks := (parse_suffix m).1 _ _ _ hf
        have hg1 : ∀ tk ∈ r1, TokGood tk := fun tk htk => hg tk (hsuf.subset htk)
        have hc1 : List.Chain' RTok r1 := hc.suffix hsuf
        split at h
        · rename_i ts2 r2 heq
          cases h
          have hw2 : wfForest ts2 := ih.2 _ _ _ heq hg1 hc1
          simp only [wfForest]
          exact ⟨hw1, hw2⟩
        · cases h
          simp only [wfForest]
          exact hw1

/-- The scanner only emits non-empty pieces. -/
theorem scan_pieces_ne (cs : List Char) :
    ∀ prev cur, ∀ p ∈ scanPieces cs prev cur, p ≠ [] := by
  induction cs with
  | nil =>
    intro prev cur p hp
    simp only [scanPieces] at hp
    split at hp
    · cases hp
    · rename_i hne
      simp at hp
      subst hp
      intro hc
      rw [hc] at hne
      simp at hne
  | cons c cs ih =>
    intro prev cur p hp
    simp only [scanPieces] at hp
    split at hp
    · by_cases hce : cur.isEmpty <;> simp [hce] at hp
      · rcases hp with hp | hp
        · subst hp; simp
        · exact ih (some c) [] p hp
      · rcases hp with hp | hp | hp
        · subst hp
          intro hc
          rw [hc] at hce
          simp at hce
        · subst hp; simp
        · exact ih (some c) [] p hp
    · split at hp
      · by_cases hce : cur.isEmpty <;> simp [hce] at hp
        · rcases hp with hp | hp
          · subst hp; simp
          · exact ih (some c) [] p hp
        · rcases hp with hp | hp | hp
          · subst hp
            intro hc
            rw [hc] at hce
            simp at hce
          · subst hp; simp
          · exact ih (some c) [] p hp
      · exact ih (some c) (cur ++ [c]) p hp

/-- Every scanner piece is a bare parenthesis or contains no
parenthesis. -/
theorem scan_pieces_shape (cs : List Char) :
    ∀ prev cur, '(' ∉ cur → ')' ∉ cur →
    ∀ p ∈ scanPieces cs prev cur,
      p = ['('] ∨ p = [')'] ∨ ('(' ∉ p ∧ ')' ∉ p) := by
  induction cs with
  | nil =>
    intro prev cur h1 h2 p hp
    simp only [scanPieces] at hp
    split at hp
    · cases hp
    · simp at hp
      subst hp
      exact Or.inr (Or.inr ⟨h1, h2⟩)
  | cons c cs ih =>
    intro prev cur h1 h2 p hp
    simp only [scanPieces] at hp
    split at hp
    · rename_i hc
      by_cases hce : cur.isEmpty <;> simp [hce] at hp
      · rcases hp with hp | hp
        · subst hp
          rcases hc with hc | hc <;> subst hc
          · exact Or.inl rfl
          · exact Or.inr (Or.inl rfl)
        · exact ih (some c) [] (by simp) (by simp) p hp
      · rcases hp with hp | hp | hp
        · subst hp
          exact Or.inr (Or.inr ⟨h1, h2⟩)
        · subst hp
          rcases hc with hc | hc <;> subst hc
          · exact Or.inl rfl
          · exact Or.inr (Or.inl rfl)
        · exact ih (some c) [] (by simp) (by simp) p hp
    · rename_i hcnp
      have hcnp1 : c ≠ '(' := fun h => hcnp (Or.inl h)
      have hcnp2 : c ≠ ')' := fun h => hcnp (Or.inr h)
      split at hp
      · rename_i hop
        by_cases hce : cur.isEmpty <;> simp [hce] at hp
        · rcases hp with hp | hp
          · subst hp
            refine Or.inr (Or.inr ⟨?_, ?_⟩) <;> simp [Ne.symm hcnp1, Ne.symm hcnp2]
          · exact ih (some c) [] (by simp) (by simp) p hp
        · rcases hp with hp | hp | hp
          · subst hp
            exact Or.inr (Or.inr ⟨h1, h2⟩)
          · subst hp
            refine Or.inr (Or.inr ⟨?_, ?_⟩) <;> simp [Ne.symm hcnp1, Ne.symm hcnp2]
          · exact ih (some c) [] (by simp) (by simp) p hp
      · refine ih (some c) (cur ++ [c]) ?_ ?_ p hp
        · simp [h1, Ne.symm hcnp1]
        · simp [h2, Ne.symm hcnp2]

/-- The first piece of a scan that starts with a non-empty current chunk
begins with that chunk's first character. -/
theorem scan_first_head (cs : List Char) :
    ∀ prev cur, cur ≠ [] →
    ∀ p, (scanPieces cs prev cur).head? = some p → p.head? = cur.head? := by
  induction cs with
  | nil =>
    intro prev cur hne p hp
    simp only [scanPieces] at hp
    rw [if_neg (by simpa using hne)] at hp
    simp at hp
    subst hp
    rfl
  | cons c cs ih =>
    intro prev cur hne p hp
    simp only [scanPieces] at hp
    split at hp
    · rw [if_neg (by simpa using hne)] at hp
      simp at hp
      subst hp
      rfl
    · split at hp
      · rw [if_neg (by simpa using hne)] at hp
        simp at hp
        subst hp
        rfl
      · have := ih (some c) (cur ++ [c]) (by simp) p hp
        rw [this]
        cases cur with
        | nil => cases hne rfl
        | cons x xs => rfl

/-- After a `(`, the next piece (if any) is a parenthesis, an operator
piece, or starts with a non-operator character. -/
theorem scan_head_after_lp (cs : List Char) :
    ∀ p, (scanPieces cs (some '(') []).head? = some p →
    p = ['('] ∨ p = [')'] ∨ p = ['&'] ∨ p = ['|'] ∨ p = ['!']
      ∨ (∀ x, p.head? = some x → ¬(x = '&' ∨ x = '|' ∨ x = '!')) := by
  cases cs with
  | nil =>
    intro p hp
    simp [scanPieces] at hp
  | cons c cs =>
    intro p hp
    simp only [scanPieces] at hp
    split at hp
    · rename_i hc
      simp at hp
      subst hp
      rcases hc with hc | hc <;> subst hc
      · exact Or.inl rfl
      · exact Or.inr (Or.inl rfl)
    · split at hp
      · rename_i hop
        simp at hp
        subst hp
        rcases hop.1 with hc | hc | hc <;> subst hc
        · exact Or.inr (Or.inr (Or.inl rfl))
        · exact Or.inr (Or.inr (Or.inr (Or.inl rfl)))
        · exact Or.inr (Or.inr (Or.inr (Or.inr (Or.inl rfl))))
      · rename_i hop
        have hcop : ¬(c = '&' ∨ c = '|' ∨ c = '!') := by
          intro hcontra
          exact hop ⟨hcontra, by trivial⟩
        have hh := scan_first_head cs (some c) [c] (by simp) p hp
        refine Or.inr (Or.inr (Or.inr (Or.inr (Or.inr ?_))))
        intro x hx
        rw [hh] at hx
        simp at hx
        subst hx
        exact hcop

/-- Piece-level adjacency: whatever directly follows a `(` piece is a
parenthesis piece, an operator piece, or starts with a non-operator
character. -/
def Rp (p q : List Char) : Prop :=
  p = ['('] → (q = ['('] ∨ q = [')'] ∨ q = ['&'] ∨ q = ['|'] ∨ q = ['!']
    ∨ ∀ x, q.head? = some x → ¬(x = '&' ∨ x = '|' ∨ x = '!'))

/-- The scanner's output satisfies the piece-level adjacency relation. -/
theorem scan_chain (cs : List Char) :
    ∀ prev cur, '(' ∉ cur → List.Chain' Rp (scanPieces cs prev cur) := by
  induction cs with
  | nil =>
    intro prev cur h1
    simp only [scanPieces]
    split
    · exact List.chain'_nil
    · exact List.chain'_singleton _
  | cons c cs ih =>
    intro prev cur h1
    simp only [scanPieces]
    have hcurlp : cur ≠ ['('] := by
      intro hcontra
      exact h1 (hcontra ▸ List.mem_cons_self '(' [])
    split
    · rename_i hc
      by_cases hce : cur.isEmpty <;> simp only [hce, if_pos, if_neg, Bool.false_eq_true,
        not_false_iff, List.nil_append, List.append_nil, List.cons_append, List.nil_append]
      · rw [List.chain'_cons']
        refine ⟨?_, ih (some c) [] (by simp)⟩
        intro q hq hpl
        have hceq : c = '(' := by
          have := List.cons.inj hpl
          exact this.1
        subst hceq
        exact scan_head_after_lp cs q (Option.mem_def.mp hq)
      · rw [List.chain'_cons, List.chain'_cons']
        refine ⟨fun hcontra => absurd hcontra hcurlp, ?_, ih (some c) [] (by simp)⟩
        intro q hq hpl
        have hceq : c = '(' := (List.cons.inj hpl).1
        subst hceq
        exact scan_head_after_lp cs q (Option.mem_def.mp hq)
    · split
      · rename_i hop
        have hcop : c = '&' ∨ c = '|' ∨ c = '!' := hop.1
        have hclp : c ≠ '(' := by
          rcases hcop with hc | hc | hc <;> subst hc <;> decide
        by_cases hce : cur.isEmpty <;> simp only [hce, if_pos, if_neg, Bool.false_eq_true,
          not_false_iff, List.nil_append, List.append_nil, List.cons_append, List.nil_append]
        · rw [List.chain'_cons']
          refine ⟨?_, ih (some c) [] (by simp)⟩
          intro q hq hpl
          exact absurd (List.cons.inj hpl).1 hclp
        · rw [List.chain'_cons, List.chain'_cons']
          refine ⟨fun hcontra => absurd hcontra hcurlp, ?_, ih (some c) [] (by simp)⟩
          intro q hq hpl
          exact absurd (List.cons.inj hpl).1 hclp
      · rename_i hcnp hop
        have hclp : c ≠ '(' := fun h => hcnp (Or.inl h)
        refine ih (some c) (cur ++ [c]) ?_
        simp [h1, Ne.symm hclp]

/-- Case analysis of `gen_tokens` on one piece. -/
theorem genTok_cases (p : List Char) (tk : Tok) (h : genTok p = .ok tk) :
    (p = ['('] ∧ tk = .lp) ∨ (p = ['&'] ∧ tk = .andT) ∨ (p = ['|'] ∧ tk = .orT)
    ∨ (p = ['!'] ∧ tk = .notT) ∨ (p = [')'] ∧ tk = .rp)
    ∨ (p ≠ ['('] ∧ p ≠ ['&'] ∧ p ≠ ['|'] ∧ p ≠ ['!'] ∧ p ≠ [')']
        ∧ ∃ a v, testParse p = .ok (a, v) ∧ tk = .test p a v) := by
  unfold genTok at h
  split_ifs at h with h1 h2 h3 h4 h5
  · exact Or.inl ⟨h1, (Except.ok.inj h).symm⟩
  · exact Or.inr (Or.inl ⟨h2, (Except.ok.inj h).symm⟩)
  · exact Or.inr (Or.inr (Or.inl ⟨h3, (Except.ok.inj h).symm⟩))
  · exact Or.inr (Or.inr (Or.inr (Or.inl ⟨h4, (Except.ok.inj h).symm⟩)))
  · exact Or.inr (Or.inr (Or.inr (Or.inr (Or.inl ⟨h5, (Except.ok.inj h).symm⟩))))
  · refine Or.inr (Or.inr (Or.inr (Or.inr (Or.inr ⟨h1, h2, h3, h4, h5, ?_⟩))))
    split at h
    · cases h
    · rename_i a v heq
      exact ⟨a, v, heq, (Except.ok.inj h).symm⟩

/-- The head token comes from the head piece. -/
theorem genToks_head (ps : List (List Char)) (ts : List Tok) (h : genToks ps = .ok ts) :
    ∀ b, ts.head? = some b → ∃ q, ps.head? = some q ∧ genTok q = .ok b := by
  cases ps with
  | nil =>
    unfold genToks at h
    cases h
    intro b hb
    cases hb
  | cons p ps2 =>
    unfold genToks at h
    split at h
    · cases h
    · rename_i tk hgp
      split at h
      · cases h
      · rename_i ts2 hgps
        cases h
        intro b hb
        simp at hb
        exact ⟨p, rfl, hb ▸ hgp⟩

/-- Transport of the scanner facts through token generation: the tokens
are good and their adjacencies satisfy `RTok`. -/
theorem genToks_transport (ps : List (List Char)) :
    ∀ ts, genToks ps = .ok ts →
    (∀ p ∈ ps, p ≠ []) →
    (∀ p ∈ ps, p = ['('] ∨ p = [')'] ∨ ('(' ∉ p ∧ ')' ∉ p)) →
    List.Chain' Rp ps →
    (∀ tk ∈ ts, TokGood tk) ∧ List.Chain' RTok ts := by
  induction ps with
  | nil =>
    intro ts h _ _ _
    unfold genToks at h
    cases h
    exact ⟨fun tk htk => absurd htk (List.not_mem_nil tk), List.chain'_nil⟩
  | cons p ps ih =>
    intro ts h hne hshape hchain
    unfold genToks at h
    split at h
    · cases h
    · rename_i tk hgp
      split at h
      · cases h
      · rename_i ts2 hgps
        cases h
        have ihres := ih ts2 hgps (fun q hq => hne q (List.mem_cons_of_mem p hq))
          (fun q hq => hshape q (List.mem_cons_of_mem p hq)) hchain.tail
        constructor
        · intro tk2 htk2
          rcases List.mem_cons.mp htk2 with rfl | htk2
          · rcases genTok_cases p tk2 hgp with ⟨_, rfl⟩ | ⟨_, rfl⟩ | ⟨_, rfl⟩
              | ⟨_, rfl⟩ | ⟨_, rfl⟩ | ⟨hq1, hq2, hq3, hq4, hq5, a, v, htp, rfl⟩
            · trivial
            · trivial
            · trivial
            · trivial
            · trivial
            · have hpne := hne p (List.mem_cons_self p ps)
              have hpshape := hshape p (List.mem_cons_self p ps)
              rcases hpshape with hc | hc | hc
              · exact absurd hc hq1
              · exact absurd hc hq5
              · exact ⟨hpne, hc.1, hc.2, hq2, hq3, hq4, htp⟩
          · exact ihres.1 tk2 htk2
        · rw [List.chain'_cons']
          refine ⟨?_, ihres.2⟩
          intro b hb
          intro c a v htkeq hbeq
          subst htkeq
          subst hbeq
          obtain ⟨q, hqhead, hgq⟩ := genToks_head ps ts2 hgps _ (Option.mem_def.mp hb)
          have hplp : p = ['('] := by
            rcases genTok_cases p .lp hgp with ⟨hp, _⟩ | ⟨_, hcon⟩ | ⟨_, hcon⟩
              | ⟨_, hcon⟩ | ⟨_, hcon⟩ | ⟨_, _, _, _, _, _, _, _, hcon⟩
            · exact hp
            all_goals cases hcon
          have hrp : Rp p q := (List.chain'_cons'.mp hchain).1 q (Option.mem_def.mpr hqhead)
          have hdisj := hrp hplp
          rcases genTok_cases q (.test c a v) hgq with ⟨_, hcon⟩ | ⟨_, hcon⟩ | ⟨_, hcon⟩
            | ⟨_, hcon⟩ | ⟨_, hcon⟩ | ⟨hq1, hq2, hq3, hq4, hq5, a2, v2, htp, hqeq⟩
          · cases hcon
          · cases hcon
          · cases hcon
          · cases hcon
          · cases hcon
          · have hqc : q = c := by
              cases hqeq
              rfl
            subst hqc
            rcases hdisj with hc | hc | hc | hc | hc | hc
            · exact absurd hc hq1
            · exact absurd hc hq5
            · exact absurd hc hq2
            · exact absurd hc hq3
            · exact absurd hc hq4
            · exact hc

/-- Tokenization yields good tokens with good adjacencies. -/
theorem tokenizeF_good (cs : List Char) (toks : List Tok) (h : tokenizeF cs = .ok toks) :
    (∀ tk ∈ toks, TokGood tk) ∧ List.Chain' RTok toks := by
  unfold tokenizeF at h
  exact genToks_transport _ _ h (scan_pieces_ne cs none [])
    (scan_pieces_shape cs none [] (by simp) (by simp))
    (scan_chain cs none [] (by simp))

/-- Soundness of `parse`: every parsed tree is well formed. -/
theorem parseFilter_wf (s : String) (t : FTree) (h : parseFilter s = .ok t) : wfT t := by
  unfold parseFilter at h
  split at h
  · cases h
  · rename_i toks htk
    split at h
    · rename_i t2 heq
      cases h
      have hgood := tokenizeF_good s.data toks htk
      exact (parse_sound (toks.length + 1)).1 toks t [] heq hgood.1 hgood.2
    · cases h

/-- Completeness of the round trip: unparsing a well-formed tree and
parsing again returns exactly the same tree. -/
theorem parseFilter_unparse (t : FTree) (hw : wfT t) :
    parseFilter (String.mk (unparseF t)) = .ok t := by
  have hscan : scanPieces (unparseF t) none [] = piecesF t := by
    have h0 := scan_unparse t hw [] none
    simpa [scanPieces] using h0
  have htok : tokenizeF (unparseF t) = .ok (tokListF t) := by
    unfold tokenizeF
    rw [hscan]
    exact genToks_pieces t hw
  have hpar : parseF ((tokListF t).length + 1) (tokListF t) = some (t, []) := by
    have h1 := parseF_complete t hw ((tokListF t).length + 1) [] (by simp)
    simpa using h1
  unfold parseFilter
  rw [show (String.mk (unparseF t)).data = unparseF t from rfl, htok]
  show (match parseF ((tokListF t).length + 1) (tokListF t) with
        | some (t2, []) => Except.ok t2
        | _ => Except.error PyErr.filterError) = Except.ok t
  rw [hpar]

/-- Claim C8: for every filter string accepted by the Filter Engine's
parse, applying parse, then unparse, then parse again yields an
expression tree that evaluates identically to the first tree on every
(eid, attributes) input — in fact the re-parsed tree is exactly the
first tree. -/
theorem parse_unparse_parse_roundtrip (s : String) (t : FTree)
    (h : parseFilter s = .ok t) :
    ∃ t2, parseFilter (String.mk (unparseF t)) = .ok t2
      ∧ ∀ dn attrs, matchesF dn attrs t2 = matchesF dn attrs t :=
  ⟨t, parseFilter_unparse t (parseFilter_wf s t h), fun _ _ => rfl⟩

/-- Fixture: the tree `parse` produces for
`(&(cn=alice)(!(uid=*)))`. -/
def tWitness : FTree :=
  .andT (.cons (.test "cn=alice".data "cn".data "alice".data)
    (.one (.notT (.test "uid=*".data "uid".data "*".data))))

/-- Witness for the C8 theorem at a concrete accepted filter string. -/
theorem parse_unparse_parse_roundtrip_witness :
    ∃ t2, parseFilter (String.mk (unparseF tWitness)) = .ok t2
      ∧ ∀ dn attrs, matchesF dn attrs t2 = matchesF dn attrs tWitness :=
  parse_unparse_parse_roundtrip "(&(cn=alice)(!(uid=\x2a)))" tWitness (by rfl)

end Mockldap
